import Mathlib

/-!
Verification of the lwan connection-engine core against its specification.

The definitions below are a shallow embedding of the C source: the
connection slab and per-request reset, the URL-map (re)registration, the
acceptor loop, the generic sorted-bucket hash map, and the worker-reactor
state machine (dispatch, hangup, death-queue enrollment and reaping).
-/

namespace Lwan

/-- Model of a C pointer value as far as the claims need it: the null
pointer, the address of the static `empty_query_string_kv` sentinel, or
some heap allocation identified by a number. -/
inductive Ptr where
  | null : Ptr
  | sentinel : Ptr
  | heap (n : Nat) : Ptr
  deriving DecidableEq, Repr

/-- Model of `lwan_request_t`: the fields the core engine reads and
writes.  `response_buffer` is the identity (allocation id) of the strbuf
pointed to by `response.buffer`; `response_buffer_len` models the length
stored in that strbuf.  `coro` carries the id of the current coroutine,
if any.  `lwan` models whether the back-pointer is set. -/
structure Conn where
  fd : Nat
  lwan : Bool
  coro : Option Nat
  response_buffer : Option Nat
  response_buffer_len : Nat
  query_string_kv_base : Ptr
  alive : Bool
  should_resume_coro : Bool
  write_events : Bool
  is_keep_alive : Bool
  time_to_die : Nat
  deriving DecidableEq, Repr

/-- The all-zero `lwan_request_t`, as produced by `calloc` or `memset`. -/
def zeroConn : Conn :=
  { fd := 0
    lwan := false
    coro := none
    response_buffer := none
    response_buffer_len := 0
    query_string_kv_base := Ptr.null
    alive := false
    should_resume_coro := false
    write_events := false
    is_keep_alive := false
    time_to_die := 0 }

/-- Shallow embedding of `_reset_request`: save `fd`, `lwan`, `coro` and
the response buffer pointer, `memset` the whole struct to zero, restore
the four saved fields, rebind `query_string_kv.base` to the shared empty
sentinel, and `strbuf_reset` the response buffer (length back to 0). -/
def reset_request (r : Conn) : Conn :=
  { zeroConn with
    fd := r.fd
    lwan := r.lwan
    coro := r.coro
    response_buffer := r.response_buffer
    response_buffer_len := 0
    query_string_kv_base := Ptr.sentinel }

/-- Pointwise update of a function-modelled array. -/
def upd {α : Type} (f : Nat → α) (i : Nat) (v : α) : Nat → α :=
  fun j => if j = i then v else f j

/-! ### Slab initialization (`lwan_init`) -/

/-- The RLIMIT_NOFILE adjustment performed by `lwan_init`: if the hard
limit is infinite the soft limit is multiplied by 8, otherwise it is
raised to the hard limit when below it. -/
def rlimit_adjust (rlim_cur : Nat) (rlim_max : Option Nat) : Nat :=
  match rlim_max with
  | none => rlim_cur * 8
  | some m => if rlim_cur < m then m else rlim_cur

/-- The initialization loop of `lwan_init`, translated from
`for (--r.rlim_cur; r.rlim_cur; --r.rlim_cur)`: the loop body runs for
slot indices `rlim_cur - 1` down to `1` and stops when the index reaches
`0`.  Each visited slot receives a fresh response buffer (modelled with
the slot index as its allocation id) and the `lwan` back-pointer. -/
def lwan_init_loop (requests : Nat → Conn) : Nat → (Nat → Conn)
  | 0 => requests
  | Nat.succ n =>
      lwan_init_loop
        (upd requests (Nat.succ n)
          { requests (Nat.succ n) with
            response_buffer := some (Nat.succ n)
            lwan := true })
        n

/-- The connection slab produced by `lwan_init`: `calloc`-zeroed
`lwan_request_t[rlim_cur]`, then the initialization loop. -/
def lwan_init_requests (rlim_cur : Nat) : Nat → Conn :=
  lwan_init_loop (fun _ => zeroConn) (rlim_cur - 1)

/-! ### URL-map registration (`lwan_set_url_map` and `_url_map_free`) -/

/-- One `lwan_url_map_t` entry as the registration code sees it:
whether `handler` is non-NULL and which of its `init`/`shutdown`
function pointers are present, together with the opaque `data` that
`shutdown` would be handed. -/
structure UrlMapEntry where
  hasHandler : Bool
  hasInit : Bool
  hasShutdown : Bool
  data : Nat
  deriving DecidableEq, Repr

/-- Observable handler-lifecycle calls made while (re)registering a URL
map. -/
inductive RouterEvent where
  | teardown (idx : Nat) (data : Nat) : RouterEvent
  | handlerInit (idx : Nat) : RouterEvent
  deriving DecidableEq, Repr

/-- The loop of `_url_map_free`: walk the previously registered entries
and call `handler->shutdown(url_map->data)` on each entry whose handler
has a shutdown function.  `i` is the index of the first entry of the
remaining suffix. -/
def url_map_free_loop : List UrlMapEntry → Nat → List RouterEvent
  | [], _ => []
  | e :: es, i =>
      (if e.hasHandler && e.hasShutdown then [RouterEvent.teardown i e.data] else [])
        ++ url_map_free_loop es (i + 1)

/-- `_url_map_free`: a no-op when no URL map was registered before,
otherwise the teardown loop over the old entries. -/
def url_map_free (old : Option (List UrlMapEntry)) : List RouterEvent :=
  match old with
  | none => []
  | some entries => url_map_free_loop entries 0

/-- The registration loop of `lwan_set_url_map`: for each new entry
whose handler has an `init`, call it (storing its result in `data`);
entries without one only get the default parse flags. -/
def set_url_map_loop : List UrlMapEntry → Nat → List RouterEvent
  | [], _ => []
  | e :: es, i =>
      (if e.hasHandler && e.hasInit then [RouterEvent.handlerInit i] else [])
        ++ set_url_map_loop es (i + 1)

/-- `lwan_set_url_map`: first `_url_map_free` over the previously
registered entries, then the registration loop over the new ones.  The
result is the sequence of handler-lifecycle calls in program order. -/
def lwan_set_url_map_events (old : Option (List UrlMapEntry))
    (new : List UrlMapEntry) : List RouterEvent :=
  url_map_free old ++ set_url_map_loop new 0

/-- Discriminator for teardown events. -/
def RouterEvent.isTeardown : RouterEvent → Bool
  | RouterEvent.teardown _ _ => true
  | RouterEvent.handlerInit _ => false

/-! ### Acceptor (`lwan_main_loop` and `_push_request_fd`) -/

def EPOLLIN : Nat := 1
def EPOLLOUT : Nat := 4
def EPOLLERR : Nat := 8
def EPOLLHUP : Nat := 16
def EPOLLRDHUP : Nat := 8192
def EPOLLET : Nat := 2147483648

/-- The interest mask `_push_request_fd` uses for `epoll_ctl(ADD)`. -/
def epoll_add_mask : Nat := EPOLLIN ||| EPOLLRDHUP ||| EPOLLERR ||| EPOLLET

/-- `_push_request_fd`: pick the worker `counter++ % l->thread.count`
and enroll the fd into that worker's epoll set with `epoll_add_mask`.
Returns (chosen worker, interest mask, new counter). -/
def push_request_fd (n_threads : Nat) (counter : Nat) : Nat × Nat × Nat :=
  (counter % n_threads, epoll_add_mask, counter + 1)

/-- The workers chosen for the first `k` accepted connections (and the
acceptor's counter afterwards), obtained by iterating
`_push_request_fd` from the initial `static int counter = 0`. -/
def accept_sequence (n_threads : Nat) : Nat → List Nat × Nat
  | 0 => ([], 0)
  | Nat.succ k =>
      let p := accept_sequence n_threads k
      (p.1 ++ [(push_request_fd n_threads p.2).1],
       (push_request_fd n_threads p.2).2.2)

/-- Result of one per-connection iteration of the acceptor loop. -/
structure AcceptIterResult where
  logged_error : Bool
  exits_process : Bool
  enrolled_worker : Option Nat
  deriving DecidableEq, Repr

/-- One per-connection iteration of `lwan_main_loop`: if `accept4`
fails, `perror("accept")` and continue; otherwise `_push_request_fd`,
which on `epoll_ctl(ADD)` failure does `perror("epoll_ctl")` and
`exit(-1)`.  `accept_ok` and `epoll_add_ok` are the outcomes of the two
system calls. -/
def lwan_main_loop_accept (n_threads counter : Nat)
    (accept_ok epoll_add_ok : Bool) : AcceptIterResult × Nat :=
  if !accept_ok then
    ({ logged_error := true, exits_process := false, enrolled_worker := none }, counter)
  else if !epoll_add_ok then
    ({ logged_error := true, exits_process := true, enrolled_worker := none }, counter + 1)
  else
    ({ logged_error := false, exits_process := false,
       enrolled_worker := some (counter % n_threads) }, counter + 1)

/-! ### Generic hash map (`hash.c`), instantiated at integer keys

The C table is generic over `key_compare`; the claims concern the
sorted-bucket invariant and binary-search lookup, which depend only on
the comparator being a total order.  We instantiate keys at `Int` with
`hash_int_key_cmp` (`a - b`), which is the int-table comparator, and
keep the hash function abstract. -/

structure HashEntry where
  key : Int
  value : Nat
  deriving DecidableEq, Repr

/-- The table: bucket array plus entry count.  `step` is the bucket
growth granularity computed by `hash_internal_new`; it only affects
capacity management, which the list model does not track. -/
structure HashT where
  n_buckets : Nat
  step : Nat
  count : Nat
  buckets : List (List HashEntry)
  deriving DecidableEq, Repr

/-- `hash_internal_new`: `calloc`ed bucket array and the `step`
computation (`n_buckets / 32`, clamped to `[4, 64]`). -/
def hash_internal_new (n_buckets : Nat) : HashT :=
  let s := n_buckets / 32
  { n_buckets := n_buckets
    step := if s = 0 then 4 else if s > 64 then 64 else s
    count := 0
    buckets := List.replicate n_buckets [] }

/-- `hash_int_key_cmp`: the integer-key comparator `a - b`. -/
def key_compare (k1 k2 : Int) : Int := k1 - k2

/-- The insertion scan of `hash_add` over one bucket: walk the entries
in order; on a zero comparison replace the value in place (keeping the
stored key); on a negative comparison shift the tail up and insert
before it; otherwise continue, appending at the end.  The `Bool` is
true when an existing entry was replaced (the C early-`return 0` path,
which skips the `used++`/`count++`). -/
def bucket_add (key : Int) (value : Nat) : List HashEntry → List HashEntry × Bool
  | [] => ([{ key := key, value := value }], false)
  | e :: es =>
      let c := key_compare key e.key
      if c = 0 then ({ key := e.key, value := value } :: es, true)
      else if c < 0 then ({ key := key, value := value } :: e :: es, false)
      else
        let (es', r) := bucket_add key value es
        (e :: es', r)

/-- `hash_add`: add or replace `key` in the bucket selected by
`hash_value(key) % n_buckets`. -/
def hash_add (hashFn : Int → Nat) (h : HashT) (key : Int) (value : Nat) : HashT :=
  let pos := hashFn key % h.n_buckets
  let (b', replaced) := bucket_add key value (h.buckets.getD pos [])
  { h with
    buckets := h.buckets.set pos b'
    count := if replaced then h.count else h.count + 1 }

/-- The insertion scan of `hash_add_unique`: like `bucket_add` but a
zero comparison fails with `-EEXIST` (modelled as `none`). -/
def bucket_add_unique (key : Int) (value : Nat) :
    List HashEntry → Option (List HashEntry)
  | [] => some [{ key := key, value := value }]
  | e :: es =>
      let c := key_compare key e.key
      if c = 0 then none
      else if c < 0 then some ({ key := key, value := value } :: e :: es)
      else (bucket_add_unique key value es).map (fun es' => e :: es')

/-- `hash_add_unique`: insert, failing (and leaving the table
unchanged) when the key already exists. -/
def hash_add_unique (hashFn : Int → Nat) (h : HashT) (key : Int) (value : Nat) : HashT :=
  let pos := hashFn key % h.n_buckets
  match bucket_add_unique key value (h.buckets.getD pos []) with
  | none => h
  | some b' =>
      { h with
        buckets := h.buckets.set pos b'
        count := h.count + 1 }

/-- The binary search of `hash_find_entry` over one bucket, returning
the index of the matching entry.  `lower_bound`/`upper_bound` mirror
the C variables. -/
def hash_find_entry_loop (key : Int) (b : List HashEntry)
    (lower_bound upper_bound : Nat) : Option Nat :=
  if h : lower_bound < upper_bound then
    let idx := (lower_bound + upper_bound) / 2
    match b.get? idx with
    | none => none
    | some e =>
        let cmp := key_compare key e.key
        if cmp = 0 then some idx
        else if cmp > 0 then hash_find_entry_loop key b (idx + 1) upper_bound
        else hash_find_entry_loop key b lower_bound idx
  else none
termination_by upper_bound - lower_bound
decreasing_by
  all_goals omega

/-- `hash_find_entry`: binary search of the bucket selected by the
key's hash, over `[0, used)`. -/
def hash_find_entry (hashFn : Int → Nat) (h : HashT) (key : Int) :
    Option (Nat × HashEntry) :=
  let pos := hashFn key % h.n_buckets
  let bucket := h.buckets.getD pos []
  match hash_find_entry_loop key bucket 0 bucket.length with
  | none => none
  | some idx => (bucket.get? idx).map (fun e => (idx, e))

/-- `hash_find`: the found entry's value, or NULL (`none`). -/
def hash_find (hashFn : Int → Nat) (h : HashT) (key : Int) : Option Nat :=
  match hash_find_entry hashFn h key with
  | none => none
  | some (_, e) => some e.value

/-- `hash_del`: locate the entry with `hash_find_entry`; on `-ENOENT`
leave the table unchanged, otherwise shift the tail down over it and
decrement the counters.  The `Bool` reports whether a deletion
happened. -/
def hash_del (hashFn : Int → Nat) (h : HashT) (key : Int) : HashT × Bool :=
  let pos := hashFn key % h.n_buckets
  let bucket := h.buckets.getD pos []
  match hash_find_entry hashFn h key with
  | none => (h, false)
  | some (idx, _) =>
      ({ h with
          buckets := h.buckets.set pos (bucket.eraseIdx idx)
          count := h.count - 1 }, true)

/-- One mutating hash-map operation. -/
inductive HashOp where
  | add (key : Int) (value : Nat) : HashOp
  | addUnique (key : Int) (value : Nat) : HashOp
  | del (key : Int) : HashOp
  deriving DecidableEq, Repr

/-- Apply one operation to the table. -/
def hash_apply (hashFn : Int → Nat) (h : HashT) : HashOp → HashT
  | HashOp.add k v => hash_add hashFn h k v
  | HashOp.addUnique k v => hash_add_unique hashFn h k v
  | HashOp.del k => (hash_del hashFn h k).1

/-- Run a sequence of operations. -/
def hash_run (hashFn : Int → Nat) (h : HashT) (ops : List HashOp) : HashT :=
  ops.foldl (hash_apply hashFn) h

/-- Reference semantics of one operation on a partial map:
`hash_add` overwrites, `hash_add_unique` inserts only when absent,
`hash_del` removes. -/
def hash_model_apply (m : Int → Option Nat) : HashOp → (Int → Option Nat)
  | HashOp.add k v => fun q => if q = k then some v else m q
  | HashOp.addUnique k v =>
      fun q => if (m k).isSome then m q else if q = k then some v else m q
  | HashOp.del k => fun q => if q = k then none else m q

/-- Reference semantics of an operation sequence from the empty map. -/
def hash_model (ops : List HashOp) : Int → Option Nat :=
  ops.foldl hash_model_apply (fun _ => none)

/-- Linear reference lookup in one bucket (first entry with the key). -/
def bucket_lookup (key : Int) : List HashEntry → Option Nat
  | [] => none
  | e :: es => if e.key = key then some e.value else bucket_lookup key es

/-- A bucket is strictly sorted by key: increasing order, so no two
entries compare equal. -/
def bucketSorted (b : List HashEntry) : Prop :=
  List.Chain' (fun e1 e2 => e1.key < e2.key) b

/-- Structural invariant of the table: the bucket array has
`n_buckets` buckets and every bucket is strictly sorted. -/
def HashInv (h : HashT) : Prop :=
  h.buckets.length = h.n_buckets ∧ 0 < h.n_buckets ∧
  ∀ pos, bucketSorted (h.buckets.getD pos [])

/-- Reference lookup: linear scan of the bucket the key hashes to. -/
def table_lookup (hashFn : Int → Nat) (h : HashT) (q : Int) : Option Nat :=
  bucket_lookup q (h.buckets.getD (hashFn q % h.n_buckets) [])

/-! ### Worker reactor (`_thread`)

State of one worker: the shared slab (only this worker's fds are ever
touched, so it is modelled per worker), the death-queue ring with its
`first`/`last`/`population` counters, the tick counter `death_time`,
and bookkeeping for the epoll set the worker owns.  Coroutines are
modelled by allocation ids; `freed_coros` records every `coro_free`
call in order.  `ghost_queue` is a history variable recording, oldest
first, the (fd, enrollment tick) of each not-yet-dequeued death-queue
enrollment; `dirty_at_add` records the slot's `write_events` at the
moment the fd was last `epoll_ctl(ADD)`ed.  Neither ghost field
influences any transition. -/

structure WConfig where
  max_fd : Nat
  keep_alive_timeout : Nat
  deriving DecidableEq, Repr

structure WState where
  requests : Nat → Conn
  death_queue : Nat → Nat
  death_queue_first : Nat
  death_queue_last : Nat
  death_queue_population : Nat
  death_time : Nat
  next_coro_id : Nat
  freed_coros : List Nat
  fd_open : Nat → Bool
  epoll_interest : Nat → Nat
  coro_started : Nat → Bool
  ghost_queue : List (Nat × Nat)
  dirty_at_add : Nat → Bool

/-- The `events_by_write_flag` table of `_resume_coro_if_needed`,
indexed by the pre-toggle `write_events` flag: index 0 (reading, about
to switch to writing) yields the EPOLLOUT mask, index 1 the EPOLLIN
mask. -/
def events_by_write_flag (write_events : Bool) : Nat :=
  if write_events then EPOLLIN ||| EPOLLRDHUP ||| EPOLLERR ||| EPOLLET
  else EPOLLOUT ||| EPOLLRDHUP ||| EPOLLERR

/-- Direction of an epoll interest mask: true when it asks for
write-readiness (contains EPOLLOUT). -/
def maskWantsWrite (mask : Nat) : Bool := Nat.testBit mask 2

/-- `_handle_hangup`: mark the connection not-alive (the fd close is
tracked in the worker state). -/
def handle_hangup (c : Conn) : Conn := { c with alive := false }

/-- `_cleanup_coro`: free the coroutine unless there is none or it
still wants to be resumed.  Returns the freed id, if any. -/
def cleanup_coro (c : Conn) : Conn × Option Nat :=
  match c.coro with
  | none => (c, none)
  | some cid =>
      if c.should_resume_coro then (c, none)
      else ({ c with coro := none }, some cid)

/-- `_spawn_coro_if_needed`: create a coroutine when the slot has none,
priming `should_resume_coro` and clearing `write_events`.  Returns the
updated connection, the next fresh coroutine id, and whether a spawn
happened. -/
def spawn_coro_if_needed (c : Conn) (next_id : Nat) : Conn × Nat × Bool :=
  match c.coro with
  | some _ => (c, next_id, false)
  | none =>
      ({ c with coro := some next_id, should_resume_coro := true, write_events := false },
       next_id + 1, true)

/-- Result of `_resume_coro_if_needed`: the updated connection, the
mask of the `epoll_ctl(MOD)` issued (if any), and whether a resume
actually happened. -/
structure ResumeOut where
  conn : Conn
  mod_mask : Option Nat
  ran : Bool
  deriving DecidableEq, Repr

/-- `_resume_coro_if_needed`.  `coro_resume` transfers control into
`_process_request_coro`: on the coroutine's first resume (`started =
false`) it begins with `_reset_request`; `lwan_process_request` (the
external parser/handler) sets `is_keep_alive` from the request and
finally either yields (`res = true`) or returns (`res = false`), which
becomes the new `should_resume_coro`.  If that differs from
`write_events`, `epoll_ctl(MOD)` is issued with
`events_by_write_flag[write_events]` (pre-toggle index) and
`write_events` is flipped. -/
def resume_coro_if_needed (c : Conn) (started keepAlive res : Bool) : ResumeOut :=
  match c.coro with
  | none => { conn := c, mod_mask := none, ran := false }
  | some _ =>
      if c.should_resume_coro then
        let c1 := if started then c else reset_request c
        let c2 := { c1 with is_keep_alive := keepAlive, should_resume_coro := res }
        if c2.should_resume_coro = c2.write_events then
          { conn := c2, mod_mask := none, ran := true }
        else
          { conn := { c2 with write_events := !c2.write_events }
            mod_mask := some (events_by_write_flag c2.write_events)
            ran := true }
      else { conn := c, mod_mask := none, ran := false }

/-- One iteration of the event-dispatch loop of `_thread` for an event
on fd `f`: set the slot's `fd`; on HUP/RDHUP run `_handle_hangup` and
continue; otherwise `_cleanup_coro`, `_spawn_coro_if_needed`,
`_resume_coro_if_needed`, then compute `time_to_die` and, when the slot
is not marked alive, append the fd to the death-queue ring and mark it
alive. -/
def dispatch_step (cfg : WConfig) (f : Nat) (hup keepAlive res : Bool) (s : WState) : WState :=
  let c0 := { s.requests f with fd := f }
  if hup then
    { s with
      requests := upd s.requests f (handle_hangup c0)
      fd_open := upd s.fd_open f false }
  else
    let cc := cleanup_coro c0
    let sp := spawn_coro_if_needed cc.1 s.next_coro_id
    let started := if sp.2.2 then false else s.coro_started f
    let r := resume_coro_if_needed sp.1 started keepAlive res
    let c4 := { r.conn with time_to_die :=
        if r.conn.is_keep_alive || r.conn.should_resume_coro then
          s.death_time + cfg.keep_alive_timeout
        else s.death_time }
    let s1 := { s with
      requests := upd s.requests f c4
      next_coro_id := sp.2.1
      freed_coros := s.freed_coros ++ cc.2.toList
      coro_started := upd s.coro_started f (if r.ran then true else started)
      epoll_interest :=
        match r.mod_mask with
        | none => s.epoll_interest
        | some m => upd s.epoll_interest f m }
    if c4.alive then s1
    else
      { s1 with
        requests := upd s1.requests f { c4 with alive := true }
        death_queue := upd s.death_queue s.death_queue_last f
        death_queue_last := (s.death_queue_last + 1) % cfg.max_fd
        death_queue_population := s.death_queue_population + 1
        ghost_queue := s.ghost_queue ++ [(f, s.death_time)] }

/-- Enrollment of a freshly accepted fd into this worker's epoll set
(`_push_request_fd` running on the acceptor): `epoll_ctl(ADD)` with the
read-interest mask.  The slab slot is not touched. -/
def accept_step (f : Nat) (s : WState) : WState :=
  { s with
    fd_open := upd s.fd_open f true
    epoll_interest := upd s.epoll_interest f epoll_add_mask
    dirty_at_add := upd s.dirty_at_add f (s.requests f).write_events }

/-- The reaping `while` loop of the timeout branch of `_thread`.  Each
iteration pops the queue head once `time_to_die` has passed, skipping
slots already dead from a hangup; the first entry that is not yet due
stops the loop.  The fuel is the population, which bounds the number of
iterations since each one decrements it. -/
def reap_loop (cfg : WConfig) : Nat → WState → WState
  | 0, s => s
  | Nat.succ fuel, s =>
      if s.death_queue_population = 0 then s
      else
        let f := s.death_queue s.death_queue_first
        let c := s.requests f
        if c.time_to_die ≤ s.death_time then
          let s1 := { s with
            death_queue_first := (s.death_queue_first + 1) % cfg.max_fd
            death_queue_population := s.death_queue_population - 1
            ghost_queue := s.ghost_queue.tail }
          if c.alive then
            let cc := cleanup_coro c
            reap_loop cfg fuel
              { s1 with
                requests := upd s1.requests f { cc.1 with alive := false }
                fd_open := upd s1.fd_open c.fd false
                freed_coros := s1.freed_coros ++ cc.2.toList }
          else reap_loop cfg fuel s1
        else s

/-- The timeout branch of `_thread` (`epoll_wait` returned 0): advance
the tick and reap. -/
def timeout_step (cfg : WConfig) (s : WState) : WState :=
  let s1 := { s with death_time := s.death_time + 1 }
  reap_loop cfg s1.death_queue_population s1

/-- Initial worker state: the slab as `lwan_init` built it, a
`calloc`ed death queue, all counters zero, no fd enrolled. -/
def worker_init (rlim_cur : Nat) : WState :=
  { requests := lwan_init_requests rlim_cur
    death_queue := fun _ => 0
    death_queue_first := 0
    death_queue_last := 0
    death_queue_population := 0
    death_time := 0
    next_coro_id := 0
    freed_coros := []
    fd_open := fun _ => false
    epoll_interest := fun _ => 0
    coro_started := fun _ => false
    ghost_queue := []
    dirty_at_add := fun _ => false }

/-- One observable worker transition: an fd enrolled by the acceptor
(only for fds not currently open), an epoll event dispatched for an
open fd (with the hangup bit and the externally chosen request
keep-alive flag and resume result), or an `epoll_wait` timeout. -/
inductive WStep (cfg : WConfig) : WState → WState → Prop where
  | accept (f : Nat) (s : WState) (h : s.fd_open f = false) :
      WStep cfg s (accept_step f s)
  | dispatch (f : Nat) (hup keepAlive res : Bool) (s : WState) (h : s.fd_open f = true) :
      WStep cfg s (dispatch_step cfg f hup keepAlive res s)
  | timeout (s : WState) : WStep cfg s (timeout_step cfg s)

/-- States the worker can reach from startup. -/
def WReachable (cfg : WConfig) (rlim_cur : Nat) (s : WState) : Prop :=
  Relation.ReflTransGen (WStep cfg) (worker_init rlim_cur) s

/-- The fds currently in the death-queue ring, walking from `first`
toward `last` modulo wraparound. -/
def dq_fds (cfg : WConfig) (s : WState) : List Nat :=
  (List.range s.death_queue_population).map
    (fun i => s.death_queue ((s.death_queue_first + i) % cfg.max_fd))

/-- Their `time_to_die` values, in walk order. -/
def dq_ttds (cfg : WConfig) (s : WState) : List Nat :=
  (dq_fds cfg s).map (fun f => (s.requests f).time_to_die)

/-- The inductive invariant of the worker state machine.  `wc`,
`coro_none` and `started_of_coro` are auxiliary strengthenings;
`interest` is the (conditional) write-direction correspondence;
the `freed`/`live` fields govern coroutine ids (no id is ever freed
twice); the `ghost` fields say the not-yet-dequeued death-queue
enrollments happened at non-decreasing ticks. -/
structure WInv (s : WState) : Prop where
  wc : ∀ f, (s.requests f).should_resume_coro = (s.requests f).write_events
  coro_none : ∀ f, (s.requests f).coro = none → (s.requests f).should_resume_coro = false
  started_of_coro : ∀ f cid, (s.requests f).coro = some cid → s.coro_started f = true
  interest : ∀ f, s.fd_open f = true → s.dirty_at_add f = false →
      maskWantsWrite (s.epoll_interest f) = (s.requests f).write_events
  freed_nodup : List.Nodup s.freed_coros
  live_fresh : ∀ f cid, (s.requests f).coro = some cid → cid < s.next_coro_id
  live_not_freed : ∀ f cid, (s.requests f).coro = some cid → cid ∉ s.freed_coros
  freed_lt : ∀ cid, cid ∈ s.freed_coros → cid < s.next_coro_id
  live_inj : ∀ f g cid, (s.requests f).coro = some cid →
      (s.requests g).coro = some cid → f = g
  ghost_len : s.ghost_queue.length = s.death_queue_population
  ghost_sorted : List.Chain' (fun a b => a.2 ≤ b.2) s.ghost_queue
  ghost_bound : ∀ p, p ∈ s.ghost_queue → p.2 ≤ s.death_time

/-! ### Concrete executions used to test the claimed invariants -/

def cfgA : WConfig := { max_fd := 4, keep_alive_timeout := 5 }

def cfgB : WConfig := { max_fd := 4, keep_alive_timeout := 1 }

/-- Two connections: fd 1 completes a keep-alive request (enrolled with
`time_to_die = 0 + 5`), then fd 2 completes a non-keep-alive request
(enrolled with `time_to_die = 0`) at the same tick. -/
def c1_state : WState :=
  dispatch_step cfgA 2 false false false
    (accept_step 2
      (dispatch_step cfgA 1 false true false
        (accept_step 1 (worker_init 8))))

/-- One keep-alive connection serving two requests back-to-back:
the second request spawns a fresh coroutine whose `_reset_request`
clears `alive`, so the dispatch tail enrolls fd 1 a second time. -/
def c2_state : WState :=
  dispatch_step cfgA 1 false true false
    (dispatch_step cfgA 1 false true false
      (accept_step 1 (worker_init 8)))

/-- Fd 1 yields mid-request (interest switched to write), hangs up, and
the fd number is reused by a new accept: the slot keeps
`write_events = true` while the newly `ADD`ed interest is read. -/
def c3_state : WState :=
  accept_step 1
    (dispatch_step cfgA 1 true false false
      (dispatch_step cfgA 1 false true true
        (accept_step 1 (worker_init 8))))

/-- Fd 1 yields mid-request (`should_resume_coro = true`), hangs up,
and the reap pass then consumes its death-queue entry. -/
def c7_state_reaped : WState :=
  timeout_step cfgB
    (dispatch_step cfgB 1 true false false
      (dispatch_step cfgB 1 false true true
        (accept_step 1 (worker_init 8))))

/-- The same run continued: the fd is reused and a next event is
dispatched on it. -/
def c7_state_next_event : WState :=
  dispatch_step cfgB 1 false true true (accept_step 1 c7_state_reaped)

/-- A connection mid-request, used to probe `_reset_request`. -/
def c4_request : Conn :=
  { fd := 3
    lwan := true
    coro := some 2
    response_buffer := some 9
    response_buffer_len := 5
    query_string_kv_base := Ptr.heap 7
    alive := true
    should_resume_coro := true
    write_events := true
    is_keep_alive := true
    time_to_die := 11 }

/-! ## Theorems -/

theorem upd_self {α : Type} (f : Nat → α) (i : Nat) (v : α) : upd f i v i = v := by
  simp [upd]

theorem upd_other {α : Type} (f : Nat → α) (i j : Nat) (v : α) (h : j ≠ i) :
    upd f i v j = f j := by
  simp [upd, h]

/-! ### C4: `_reset_request` frame -/

/-- C4 counterexample: the claim says every field other than `fd`,
`lwan`, `coro` and the response buffer equals its zero value after the
reset, but `query_string_kv.base` is rebound to the shared
`empty_query_string_kv` sentinel, which is not the zero (NULL) value. -/
theorem C4_reset_counterexample :
    (reset_request c4_request).query_string_kv_base = Ptr.sentinel ∧
    (reset_request c4_request).query_string_kv_base ≠ Ptr.null ∧
    zeroConn.query_string_kv_base = Ptr.null := by
  refine ⟨rfl, ?_, rfl⟩
  decide

/-- C4 amended: `_reset_request` preserves `fd`, `lwan`, the `coro`
reference and the response buffer identity (resetting its length to 0,
not reallocating it); every other field equals its zero value except
`query_string_kv.base`, which is rebound to the shared empty sentinel. -/
theorem C4_reset_request_frame (r : Conn) :
    (reset_request r).fd = r.fd ∧
    (reset_request r).lwan = r.lwan ∧
    (reset_request r).coro = r.coro ∧
    (reset_request r).response_buffer = r.response_buffer ∧
    (reset_request r).response_buffer_len = 0 ∧
    (reset_request r).query_string_kv_base = Ptr.sentinel ∧
    (reset_request r).alive = zeroConn.alive ∧
    (reset_request r).should_resume_coro = zeroConn.should_resume_coro ∧
    (reset_request r).write_events = zeroConn.write_events ∧
    (reset_request r).is_keep_alive = zeroConn.is_keep_alive ∧
    (reset_request r).time_to_die = zeroConn.time_to_die := by
  refine ⟨rfl, rfl, rfl, rfl, rfl, rfl, rfl, rfl, rfl, rfl, rfl⟩

/-! ### C6: slab initialization skips slot 0 -/

/-- C6: the initialization loop of `lwan_init` runs from
`rlim_cur - 1` down to `1`, so slot 0 receives neither a response
buffer nor the `lwan` back-pointer, while every other slot gets a
buffer allocated exactly once (distinct identities).  Shown at
`rlim_cur = 4`. -/
theorem C6_slot_zero_has_no_buffer :
    ((lwan_init_requests 4) 0).response_buffer = none ∧
    ((lwan_init_requests 4) 0).lwan = false ∧
    ((lwan_init_requests 4) 1).response_buffer = some 1 ∧
    ((lwan_init_requests 4) 1).lwan = true ∧
    ((lwan_init_requests 4) 2).response_buffer = some 2 ∧
    ((lwan_init_requests 4) 2).lwan = true ∧
    ((lwan_init_requests 4) 3).response_buffer = some 3 ∧
    ((lwan_init_requests 4) 3).lwan = true := by
  decide

/-! ### C8: acceptor error policy -/

/-- C8 counterexample: a failed `epoll_ctl(ADD)` enrollment of an
accepted fd makes `_push_request_fd` call `exit(-1)`, so it is not true
that no per-connection acceptor error exits the process. -/
theorem C8_enroll_failure_exits :
    (lwan_main_loop_accept 4 0 true false).1.exits_process = true ∧
    ¬ (∀ accept_ok epoll_add_ok : Bool,
        (lwan_main_loop_accept 4 0 accept_ok epoll_add_ok).1.exits_process = false) := by
  decide

/-- C8 amended: a failed `accept4` is logged and the acceptor
continues; a failed `epoll_ctl(ADD)` enrollment is logged and exits
the process; a successful iteration neither logs nor exits. -/
theorem C8_accept_error_policy (n_threads counter : Nat) (ok : Bool) :
    (lwan_main_loop_accept n_threads counter false ok).1.logged_error = true ∧
    (lwan_main_loop_accept n_threads counter false ok).1.exits_process = false ∧
    (lwan_main_loop_accept n_threads counter true false).1.logged_error = true ∧
    (lwan_main_loop_accept n_threads counter true false).1.exits_process = true ∧
    (lwan_main_loop_accept n_threads counter true true).1.logged_error = false ∧
    (lwan_main_loop_accept n_threads counter true true).1.exits_process = false := by
  refine ⟨rfl, rfl, rfl, rfl, rfl, rfl⟩

/-! ### C9: acceptor round-robin -/

theorem accept_sequence_counter (n k : Nat) : (accept_sequence n k).2 = k := by
  induction k with
  | zero => rfl
  | succ k ih => simp [accept_sequence, push_request_fd, ih]

/-- C9: the i-th accepted fd (0-based over the process lifetime) is
enrolled into worker `i % n_threads` with interest
`EPOLLIN | EPOLLRDHUP | EPOLLERR | EPOLLET`; with 4 workers, 8
consecutive accepts go to workers 0,1,2,3,0,1,2,3. -/
theorem C9_round_robin :
    (∀ n k, (accept_sequence n k).1 = (List.range k).map (fun i => i % n)) ∧
    (∀ n c, (push_request_fd n c).2.1 = EPOLLIN ||| EPOLLRDHUP ||| EPOLLERR ||| EPOLLET) ∧
    (accept_sequence 4 8).1 = [0, 1, 2, 3, 0, 1, 2, 3] := by
  refine ⟨?_, fun n c => rfl, by decide⟩
  intro n k
  induction k with
  | zero => rfl
  | succ k ih =>
      simp [accept_sequence, push_request_fd, ih, accept_sequence_counter,
        List.range_succ]

/-! ### C5: teardown-before-init on URL-map (re)registration -/

theorem url_map_free_loop_teardown_shape (es : List UrlMapEntry) (i : Nat)
    (ev : RouterEvent) (h : ev ∈ url_map_free_loop es i) : ev.isTeardown = true := by
  induction es generalizing i with
  | nil => simp [url_map_free_loop] at h
  | cons e es ih =>
      simp only [url_map_free_loop, List.mem_append] at h
      rcases h with h | h
      · by_cases hc : e.hasHandler && e.hasShutdown
        · simp [hc] at h
          simp [h, RouterEvent.isTeardown]
        · simp [hc] at h
      · exact ih (i + 1) h

theorem set_url_map_loop_init_shape (es : List UrlMapEntry) (i : Nat)
    (ev : RouterEvent) (h : ev ∈ set_url_map_loop es i) : ev.isTeardown = false := by
  induction es generalizing i with
  | nil => simp [set_url_map_loop] at h
  | cons e es ih =>
      simp only [set_url_map_loop, List.mem_append] at h
      rcases h with h | h
      · by_cases hc : e.hasHandler && e.hasInit
        · simp [hc] at h
          simp [h, RouterEvent.isTeardown]
        · simp [hc] at h
      · exact ih (i + 1) h

theorem url_map_free_loop_mem_idx (es : List UrlMapEntry) (i k : Nat) (d : Nat)
    (h : RouterEvent.teardown k d ∈ url_map_free_loop es i) : i ≤ k := by
  induction es generalizing i with
  | nil => simp [url_map_free_loop] at h
  | cons e es ih =>
      simp only [url_map_free_loop, List.mem_append] at h
      rcases h with h | h
      · by_cases hc : e.hasHandler && e.hasShutdown
        · simp [hc] at h
          omega
        · simp [hc] at h
      · have := ih (i + 1) h
        omega

theorem url_map_free_loop_count_one (es : List UrlMapEntry) (i j : Nat)
    (hj : j < es.length)
    (hh : es[j].hasHandler = true)
    (hs : es[j].hasShutdown = true) :
    (url_map_free_loop es i).count (RouterEvent.teardown (i + j) es[j].data) = 1 := by
  induction es generalizing i j with
  | nil => simp at hj
  | cons e es ih =>
      cases j with
      | zero =>
          simp only [List.getElem_cons_zero] at hh hs ⊢
          have hnz : (url_map_free_loop es (i + 1)).count
              (RouterEvent.teardown i e.data) = 0 := by
            rw [List.count_eq_zero]
            intro hmem
            have := url_map_free_loop_mem_idx es (i + 1) i e.data hmem
            omega
          simp only [url_map_free_loop, List.count_append, hh, hs, Nat.add_zero,
            Bool.and_self, if_true]
          simp [hnz]
      | succ j =>
          have hj' : j < es.length := by simpa using hj
          have ihx := ih (i + 1) j hj' (by simpa using hh) (by simpa using hs)
          have hidx : i + (j + 1) = (i + 1) + j := by omega
          simp only [List.getElem_cons_succ]
          simp only [url_map_free_loop, List.count_append]
          rw [hidx]
          by_cases hc : e.hasHandler && e.hasShutdown
          · have h0 : ([RouterEvent.teardown i e.data] : List RouterEvent).count
                (RouterEvent.teardown ((i + 1) + j) es[j].data) = 0 := by
              rw [List.count_eq_zero]
              intro hmem
              rw [List.mem_singleton] at hmem
              injection hmem with h1 h2
              omega
            rw [if_pos hc, h0, ihx]
          · rw [if_neg hc]
            simpa using ihx

/-- C5: re-registering the URL map invokes `handler->shutdown` (with
that entry's `data`) exactly once on every previously registered entry
that has one, and every such teardown happens before any `init` call on
the new entries; on first registration (`l->url_map == NULL`) no
teardown is invoked. -/
theorem C5_teardown_before_init (old new : List UrlMapEntry) :
    (∀ ev ∈ lwan_set_url_map_events none new, ev.isTeardown = false) ∧
    (∀ p q i d j,
        (lwan_set_url_map_events (some old) new).get? p
            = some (RouterEvent.teardown i d) →
        (lwan_set_url_map_events (some old) new).get? q
            = some (RouterEvent.handlerInit j) →
        p < q) ∧
    (∀ j (hj : j < old.length),
        old[j].hasHandler = true →
        old[j].hasShutdown = true →
        (lwan_set_url_map_events (some old) new).count
          (RouterEvent.teardown j old[j].data) = 1) := by
  refine ⟨?_, ?_, ?_⟩
  · intro ev hmem
    simp only [lwan_set_url_map_events, url_map_free, List.nil_append] at hmem
    exact set_url_map_loop_init_shape new 0 ev hmem
  · intro p q i d j hp hq
    simp only [lwan_set_url_map_events, url_map_free] at hp hq
    by_cases hpA : p < (url_map_free_loop old 0).length
    · by_cases hqA : q < (url_map_free_loop old 0).length
      · rw [List.get?_append hqA] at hq
        have := url_map_free_loop_teardown_shape old 0 _ (List.get?_mem hq)
        simp [RouterEvent.isTeardown] at this
      · omega
    · rw [List.get?_append_right (by omega)] at hp
      have := set_url_map_loop_init_shape new 0 _ (List.get?_mem hp)
      simp [RouterEvent.isTeardown] at this
  · intro j hj hh hs
    simp only [lwan_set_url_map_events, url_map_free, List.count_append]
    have h1 := url_map_free_loop_count_one old 0 j hj hh hs
    have h2 : (set_url_map_loop new 0).count
        (RouterEvent.teardown j old[j].data) = 0 := by
      rw [List.count_eq_zero]
      intro hmem
      have := set_url_map_loop_init_shape new 0 _ hmem
      simp [RouterEvent.isTeardown] at this
    simp only [Nat.zero_add] at h1
    omega

/-! ### C10: sorted buckets and binary-search lookup -/

instance : IsTrans HashEntry (fun e1 e2 => e1.key < e2.key) :=
  ⟨fun _ _ _ h1 h2 => lt_trans h1 h2⟩

theorem key_compare_eq_zero (a q : Int) : key_compare a q = 0 ↔ a = q := by
  simp [key_compare, sub_eq_zero]

theorem key_compare_neg (a q : Int) : key_compare a q < 0 ↔ a < q := by
  simp [key_compare, sub_neg]

theorem key_compare_pos (a q : Int) : key_compare a q > 0 ↔ q < a := by
  simp [key_compare, sub_pos]

theorem bucketSorted_pairwise (b : List HashEntry) :
    bucketSorted b ↔ List.Pairwise (fun e1 e2 => e1.key < e2.key) b :=
  List.chain'_iff_pairwise

theorem bucketSorted_tail (e : HashEntry) (es : List HashEntry)
    (h : bucketSorted (e :: es)) : bucketSorted es :=
  List.Chain'.tail h

theorem bucket_add_head_key (k : Int) (v : Nat) (b : List HashEntry) (x : HashEntry)
    (h : ((bucket_add k v b).1).head? = some x) :
    x.key = k ∨ ∃ y, b.head? = some y ∧ x.key = y.key := by
  cases b with
  | nil =>
      simp [bucket_add] at h
      simp [← h]
  | cons e es =>
      simp only [bucket_add] at h
      by_cases h0 : key_compare k e.key = 0
      · rw [if_pos h0] at h
        simp at h
        right
        exact ⟨e, rfl, by simp [← h]⟩
      · rw [if_neg h0] at h
        by_cases hneg : key_compare k e.key < 0
        · rw [if_pos hneg] at h
          simp at h
          simp [← h]
        · rw [if_neg hneg] at h
          simp at h
          right
          exact ⟨e, rfl, by simp [← h]⟩

theorem bucket_add_sorted (k : Int) (v : Nat) (b : List HashEntry)
    (hs : bucketSorted b) : bucketSorted (bucket_add k v b).1 := by
  induction b with
  | nil => simp [bucket_add, bucketSorted]
  | cons e es ih =>
      simp only [bucket_add]
      by_cases h0 : key_compare k e.key = 0
      · rw [if_pos h0]
        rw [bucketSorted, List.chain'_cons'] at hs ⊢
        exact ⟨fun y hy => hs.1 y hy, hs.2⟩
      · rw [if_neg h0]
        by_cases hneg : key_compare k e.key < 0
        · rw [if_pos hneg]
          rw [bucketSorted, List.chain'_cons]
          exact ⟨(key_compare_neg k e.key).mp hneg, hs⟩
        · rw [if_neg hneg]
          have hgt : e.key < k := by
            have h1 := (key_compare_eq_zero k e.key).not.mp h0
            have h2 := (key_compare_neg k e.key).not.mp hneg
            omega
          have hes := bucketSorted_tail e es hs
          have ihs := ih hes
          rw [bucketSorted, List.chain'_cons']
          refine ⟨?_, ihs⟩
          intro y hy
          rcases bucket_add_head_key k v es y hy with hk | ⟨z, hz, hkey⟩
          · simp only [hk]
            exact hgt
          · rw [bucketSorted, List.chain'_cons'] at hs
            have := hs.1 z hz
            simp only [hkey]
            exact this

theorem bucket_lookup_add (k : Int) (v : Nat) (q : Int) (b : List HashEntry) :
    bucket_lookup q (bucket_add k v b).1
      = if q = k then some v else bucket_lookup q b := by
  induction b with
  | nil =>
      by_cases hq : q = k
      · simp [bucket_add, bucket_lookup, hq]
      · have hne : ¬ k = q := fun h => hq h.symm
        simp [bucket_add, bucket_lookup, hq, hne]
  | cons e es ih =>
      simp only [bucket_add]
      by_cases h0 : key_compare k e.key = 0
      · have hk : k = e.key := (key_compare_eq_zero k e.key).mp h0
        rw [if_pos h0]
        by_cases hq : q = k
        · simp [bucket_lookup, hq, ← hk]
        · have hne : ¬ e.key = q := by
            rw [← hk]
            exact fun h => hq h.symm
          simp [bucket_lookup, hq, hne]
      · rw [if_neg h0]
        by_cases hneg : key_compare k e.key < 0
        · rw [if_pos hneg]
          by_cases hq : q = k
          · simp [bucket_lookup, hq]
          · have hne : ¬ k = q := fun h => hq h.symm
            simp [bucket_lookup, hq, hne]
        · rw [if_neg hneg]
          have hgt : e.key < k := by
            have h1 := (key_compare_eq_zero k e.key).not.mp h0
            have h2 := (key_compare_neg k e.key).not.mp hneg
            omega
          by_cases he : e.key = q
          · have hq : ¬ q = k := by omega
            simp [bucket_lookup, he, hq]
          · simp [bucket_lookup, he, ih]

theorem bucket_lookup_none (b : List HashEntry) (q : Int)
    (h : ∀ x ∈ b, x.key ≠ q) : bucket_lookup q b = none := by
  induction b with
  | nil => rfl
  | cons e es ih =>
      have he := h e (by simp)
      simp only [bucket_lookup, if_neg he]
      exact ih (fun x hx => h x (by simp [hx]))

theorem sorted_head_lt (e : HashEntry) (es : List HashEntry) (x : HashEntry)
    (hs : bucketSorted (e :: es)) (hx : x ∈ es) : e.key < x.key := by
  rw [bucketSorted_pairwise] at hs
  exact (List.pairwise_cons.mp hs).1 x hx

theorem sorted_lookup_lt_head (e : HashEntry) (es : List HashEntry) (q : Int)
    (hs : bucketSorted (e :: es)) (hq : q < e.key) :
    bucket_lookup q (e :: es) = none := by
  apply bucket_lookup_none
  intro x hx
  rcases List.mem_cons.mp hx with h | h
  · subst h
    omega
  · have := sorted_head_lt e es x hs h
    omega

theorem bucket_add_unique_eq (k : Int) (v : Nat) (b : List HashEntry)
    (hs : bucketSorted b) :
    bucket_add_unique k v b
      = if (bucket_lookup k b).isSome then none else some (bucket_add k v b).1 := by
  induction b with
  | nil => simp [bucket_add_unique, bucket_add, bucket_lookup]
  | cons e es ih =>
      simp only [bucket_add_unique, bucket_add]
      by_cases h0 : key_compare k e.key = 0
      · have hk : k = e.key := (key_compare_eq_zero k e.key).mp h0
        rw [if_pos h0, if_pos h0]
        have : bucket_lookup k (e :: es) = some e.value := by
          simp [bucket_lookup, hk]
        simp [this]
      · rw [if_neg h0, if_neg h0]
        by_cases hneg : key_compare k e.key < 0
        · rw [if_pos hneg, if_pos hneg]
          have hlt : k < e.key := (key_compare_neg k e.key).mp hneg
          have : bucket_lookup k (e :: es) = none :=
            sorted_lookup_lt_head e es k hs hlt
          simp [this]
        · rw [if_neg hneg, if_neg hneg]
          have hgt : e.key < k := by
            have h1 := (key_compare_eq_zero k e.key).not.mp h0
            have h2 := (key_compare_neg k e.key).not.mp hneg
            omega
          have hne : ¬ e.key = k := by omega
          have ihx := ih (bucketSorted_tail e es hs)
          simp only [bucket_lookup, if_neg hne]
          by_cases hp : (bucket_lookup k es).isSome
          · simp [ihx, hp]
          · simp [ihx, hp]

theorem sorted_lookup_get (b : List HashEntry) (k : Int) (i : Nat) (e : HashEntry)
    (hs : bucketSorted b) (hget : b.get? i = some e) (hk : e.key = k) :
    bucket_lookup k b = some e.value := by
  induction b generalizing i with
  | nil => simp at hget
  | cons x xs ih =>
      cases i with
      | zero =>
          simp only [List.get?] at hget
          have hx : x = e := by
            injection hget
          subst hx
          simp [bucket_lookup, hk]
      | succ i =>
          simp only [List.get?] at hget
          have hmem : e ∈ xs := List.get?_mem hget
          have hlt : x.key < e.key := sorted_head_lt x xs e hs hmem
          have hne : ¬ x.key = k := by omega
          simp only [bucket_lookup, if_neg hne]
          exact ih i (bucketSorted_tail x xs hs) hget

theorem sorted_get_lt (b : List HashEntry) (i j : Nat) (x y : HashEntry)
    (hs : bucketSorted b) (hij : i < j)
    (hx : b.get? i = some x) (hy : b.get? j = some y) : x.key < y.key := by
  rw [bucketSorted_pairwise, List.pairwise_iff_get] at hs
  have hi : i < b.length := (List.get?_eq_some.mp hx).1
  have hj : j < b.length := (List.get?_eq_some.mp hy).1
  have hgx : b.get ⟨i, hi⟩ = x := (List.get?_eq_some.mp hx).2
  have hgy : b.get ⟨j, hj⟩ = y := (List.get?_eq_some.mp hy).2
  have := hs ⟨i, hi⟩ ⟨j, hj⟩ hij
  rw [hgx, hgy] at this
  exact this

theorem bucket_erase_sorted (b : List HashEntry) (i : Nat)
    (hs : bucketSorted b) : bucketSorted (b.eraseIdx i) := by
  rw [bucketSorted_pairwise] at hs ⊢
  exact hs.sublist (List.eraseIdx_sublist b i)

theorem bucket_lookup_erase (b : List HashEntry) (i : Nat) (e : HashEntry) (k q : Int)
    (hs : bucketSorted b) (hget : b.get? i = some e) (hk : e.key = k) :
    bucket_lookup q (b.eraseIdx i)
      = if q = k then none else bucket_lookup q b := by
  induction b generalizing i with
  | nil => simp at hget
  | cons x xs ih =>
      cases i with
      | zero =>
          simp only [List.get?] at hget
          have hx : x = e := by
            injection hget
          subst hx
          simp only [List.eraseIdx]
          by_cases hq : q = k
          · subst hq
            rw [if_pos rfl]
            have : ∀ z ∈ xs, z.key ≠ q := by
              intro z hz
              have := sorted_head_lt x xs z hs hz
              omega
            exact bucket_lookup_none xs q this
          · rw [if_neg hq]
            have hne : ¬ x.key = q := by
              rw [hk]
              exact fun h => hq h.symm
            simp [bucket_lookup, hne]
      | succ i =>
          simp only [List.get?] at hget
          have hmem : e ∈ xs := List.get?_mem hget
          have hxk : x.key < k := by
            have := sorted_head_lt x xs e hs hmem
            omega
          simp only [List.eraseIdx]
          have ihx := ih i (bucketSorted_tail x xs hs) hget
          by_cases hxq : x.key = q
          · have hq : ¬ q = k := by omega
            simp [bucket_lookup, hxq, hq]
          · simp only [bucket_lookup, if_neg hxq]
            exact ihx

theorem hash_find_entry_loop_some (k : Int) (b : List HashEntry) (idx0 : Nat) :
    ∀ lb ub, hash_find_entry_loop k b lb ub = some idx0 →
      ∃ e, b.get? idx0 = some e ∧ e.key = k := by
  intro lb ub
  induction lb, ub using hash_find_entry_loop.induct k b with
  | case1 lb ub hlt idx heq =>
      intro h
      rw [hash_find_entry_loop, dif_pos hlt] at h
      have heq' : b.get? ((lb + ub) / 2) = none := heq
      simp only [heq'] at h
      exact Option.noConfusion h
  | case2 lb ub hlt idx e heq cmp hcmp =>
      intro h
      rw [hash_find_entry_loop, dif_pos hlt] at h
      have heq' : b.get? ((lb + ub) / 2) = some e := heq
      have hcmp' : key_compare k e.key = 0 := hcmp
      simp only [heq', hcmp', if_pos] at h
      refine ⟨e, ?_, ?_⟩
      · rw [← Option.some_inj.mp h]
        exact heq
      · have hz : k = e.key := (key_compare_eq_zero k e.key).mp hcmp'
        omega
  | case3 lb ub hlt idx e heq cmp hne hgt ih =>
      intro h
      rw [hash_find_entry_loop, dif_pos hlt] at h
      have heq' : b.get? ((lb + ub) / 2) = some e := heq
      have hne' : ¬ key_compare k e.key = 0 := hne
      have hgt' : key_compare k e.key > 0 := hgt
      simp only [heq', if_neg hne', if_pos hgt'] at h
      exact ih h
  | case4 lb ub hlt idx e heq cmp hne hngt ih =>
      intro h
      rw [hash_find_entry_loop, dif_pos hlt] at h
      have heq' : b.get? ((lb + ub) / 2) = some e := heq
      have hne' : ¬ key_compare k e.key = 0 := hne
      have hngt' : ¬ key_compare k e.key > 0 := hngt
      simp only [heq', if_neg hne', if_neg hngt'] at h
      exact ih h
  | case5 lb ub hnlt =>
      intro h
      rw [hash_find_entry_loop, dif_neg hnlt] at h
      exact Option.noConfusion h

theorem hash_find_entry_loop_complete (k : Int) (b : List HashEntry)
    (hs : bucketSorted b) (i : Nat) (e : HashEntry)
    (hget : b.get? i = some e) (hk : e.key = k) :
    ∀ lb ub, lb ≤ i → i < ub → ub ≤ b.length →
      hash_find_entry_loop k b lb ub ≠ none := by
  intro lb ub
  induction lb, ub using hash_find_entry_loop.induct k b with
  | case1 lb ub hlt idx heq =>
      intro hlb hub hlen
      have hidx : (lb + ub) / 2 < b.length := by omega
      have : b.get? ((lb + ub) / 2) ≠ none := by
        rw [Ne, List.get?_eq_none]
        omega
      exact absurd heq this
  | case2 lb ub hlt idx e2 heq cmp hcmp =>
      intro hlb hub hlen h
      rw [hash_find_entry_loop, dif_pos hlt] at h
      have heq' : b.get? ((lb + ub) / 2) = some e2 := heq
      have hcmp' : key_compare k e2.key = 0 := hcmp
      simp only [heq', hcmp', if_pos] at h
      exact Option.noConfusion h
  | case3 lb ub hlt idx e2 heq cmp hne hgt ih =>
      intro hlb hub hlen h
      rw [hash_find_entry_loop, dif_pos hlt] at h
      have heq' : b.get? ((lb + ub) / 2) = some e2 := heq
      have hne' : ¬ key_compare k e2.key = 0 := hne
      have hgt' : key_compare k e2.key > 0 := hgt
      simp only [heq', if_neg hne', if_pos hgt'] at h
      have hkgt : e2.key < k := (key_compare_pos k e2.key).mp hgt'
      have hi : (lb + ub) / 2 < i := by
        rcases Nat.lt_trichotomy i ((lb + ub) / 2) with hc | hc | hc
        · have := sorted_get_lt b i ((lb + ub) / 2) e e2 hs hc hget heq'
          omega
        · rw [hc] at hget
          rw [hget] at heq'
          have : e = e2 := by injection heq'
          subst this
          omega
        · exact hc
      exact ih (by omega) hub hlen h
  | case4 lb ub hlt idx e2 heq cmp hne hngt ih =>
      intro hlb hub hlen h
      rw [hash_find_entry_loop, dif_pos hlt] at h
      have heq' : b.get? ((lb + ub) / 2) = some e2 := heq
      have hne' : ¬ key_compare k e2.key = 0 := hne
      have hngt' : ¬ key_compare k e2.key > 0 := hngt
      simp only [heq', if_neg hne', if_neg hngt'] at h
      have hklt : k < e2.key := by
        have h1 := (key_compare_eq_zero k e2.key).not.mp hne'
        have h2 := (key_compare_pos k e2.key).not.mp hngt'
        omega
      have hi : i < (lb + ub) / 2 := by
        rcases Nat.lt_trichotomy i ((lb + ub) / 2) with hc | hc | hc
        · exact hc
        · rw [hc] at hget
          rw [hget] at heq'
          have : e = e2 := by injection heq'
          subst this
          omega
        · have := sorted_get_lt b ((lb + ub) / 2) i e2 e hs hc heq' hget
          omega
      have hmid : (lb + ub) / 2 ≤ b.length := by omega
      exact ih hlb hi hmid h
  | case5 lb ub hnlt =>
      intro hlb hub hlen
      omega

theorem bucket_lookup_some_mem (b : List HashEntry) (q : Int) (v : Nat)
    (h : bucket_lookup q b = some v) :
    ∃ i e, b.get? i = some e ∧ e.key = q ∧ e.value = v := by
  induction b with
  | nil => simp [bucket_lookup] at h
  | cons e es ih =>
      simp only [bucket_lookup] at h
      by_cases he : e.key = q
      · rw [if_pos he] at h
        exact ⟨0, e, rfl, he, Option.some_inj.mp h⟩
      · rw [if_neg he] at h
        obtain ⟨i, e2, hget, hk, hv⟩ := ih h
        exact ⟨i + 1, e2, hget, hk, hv⟩

theorem hash_find_eq_lookup (hashFn : Int → Nat) (h : HashT) (q : Int)
    (hs : ∀ pos, bucketSorted (h.buckets.getD pos [])) :
    hash_find hashFn h q = table_lookup hashFn h q := by
  simp only [hash_find, hash_find_entry, table_lookup]
  set bucket := h.buckets.getD (hashFn q % h.n_buckets) [] with hbucket
  have hbs : bucketSorted bucket := hs (hashFn q % h.n_buckets)
  cases hloop : hash_find_entry_loop q bucket 0 bucket.length with
  | none =>
      by_cases hlk : bucket_lookup q bucket = none
      · simp [hlk]
      · obtain ⟨v, hv⟩ := Option.ne_none_iff_exists'.mp hlk
        obtain ⟨i, e, hget, hk, _⟩ := bucket_lookup_some_mem bucket q v hv
        have hi : i < bucket.length := (List.get?_eq_some.mp hget).1
        exact absurd hloop
          (hash_find_entry_loop_complete q bucket hbs i e hget hk 0 bucket.length
            (Nat.zero_le i) hi (le_refl _))
  | some idx =>
      obtain ⟨e, hget, hk⟩ := hash_find_entry_loop_some q bucket idx 0 bucket.length hloop
      have hlk := sorted_lookup_get bucket q idx e hbs hget hk
      rw [List.get?_eq_getElem?] at hget
      simp [hloop, hget, hlk]

theorem getD_set_self (l : List (List HashEntry)) (pos : Nat) (b : List HashEntry)
    (hpos : pos < l.length) : (l.set pos b).getD pos [] = b := by
  rw [List.getD_eq_getD_get?, List.get?_eq_getElem?, List.getElem?_set_eq_of_lt b hpos]
  rfl

theorem getD_set_other (l : List (List HashEntry)) (pos q : Nat) (b : List HashEntry)
    (h : q ≠ pos) : (l.set pos b).getD q [] = l.getD q [] := by
  rw [List.getD_eq_getD_get?, List.getD_eq_getD_get?, List.get?_eq_getElem?,
    List.get?_eq_getElem?, List.getElem?_set_ne (Ne.symm h)]

theorem getD_replicate_nil (n pos : Nat) :
    (List.replicate n ([] : List HashEntry)).getD pos [] = [] := by
  rw [List.getD_eq_getD_get?]
  cases hget : (List.replicate n ([] : List HashEntry)).get? pos with
  | none => rfl
  | some b =>
      have := List.get?_mem hget
      rw [List.eq_of_mem_replicate this]
      rfl

theorem hash_find_entry_some_spec (hashFn : Int → Nat) (h : HashT) (k : Int)
    (idx : Nat) (e : HashEntry)
    (hfe : hash_find_entry hashFn h k = some (idx, e)) :
    (h.buckets.getD (hashFn k % h.n_buckets) []).get? idx = some e ∧ e.key = k := by
  simp only [hash_find_entry] at hfe
  cases hloop : hash_find_entry_loop k (h.buckets.getD (hashFn k % h.n_buckets) []) 0
      (h.buckets.getD (hashFn k % h.n_buckets) []).length with
  | none => rw [hloop] at hfe; exact Option.noConfusion hfe
  | some i =>
      rw [hloop] at hfe
      obtain ⟨e2, hget, hk⟩ :=
        hash_find_entry_loop_some k (h.buckets.getD (hashFn k % h.n_buckets) []) i 0 _ hloop
      have hfe2 : Option.map (fun x => (i, x))
          ((h.buckets.getD (hashFn k % h.n_buckets) []).get? i) = some (idx, e) := hfe
      rw [hget] at hfe2
      simp only [Option.map_some'] at hfe2
      have h12 : (i, e2) = (idx, e) := Option.some_inj.mp hfe2
      injection h12 with h1 h2
      subst h1
      subst h2
      exact ⟨hget, hk⟩

theorem hash_add_inv (hashFn : Int → Nat) (h : HashT) (k : Int) (v : Nat)
    (hinv : HashInv h) : HashInv (hash_add hashFn h k v) := by
  obtain ⟨hlen, hn, hs⟩ := hinv
  have hpos : hashFn k % h.n_buckets < h.buckets.length := by
    rw [hlen]
    exact Nat.mod_lt _ hn
  refine ⟨by simp [hash_add, hlen], by simp [hash_add, hn], ?_⟩
  intro pos
  simp only [hash_add]
  by_cases hp : pos = hashFn k % h.n_buckets
  · subst hp
    rw [getD_set_self _ _ _ hpos]
    exact bucket_add_sorted k v _ (hs _)
  · rw [getD_set_other _ _ _ _ hp]
    exact hs pos

theorem hash_add_lookup (hashFn : Int → Nat) (h : HashT) (k : Int) (v : Nat) (q : Int)
    (hinv : HashInv h) :
    table_lookup hashFn (hash_add hashFn h k v) q
      = if q = k then some v else table_lookup hashFn h q := by
  obtain ⟨hlen, hn, hs⟩ := hinv
  have hpos : hashFn k % h.n_buckets < h.buckets.length := by
    rw [hlen]
    exact Nat.mod_lt _ hn
  simp only [table_lookup, hash_add]
  by_cases hp : hashFn q % h.n_buckets = hashFn k % h.n_buckets
  · rw [hp, getD_set_self _ _ _ hpos]
    rw [bucket_lookup_add]
  · rw [getD_set_other _ _ _ _ hp]
    have hqk : ¬ q = k := fun hc => hp (by rw [hc])
    rw [if_neg hqk]

theorem hash_add_unique_inv (hashFn : Int → Nat) (h : HashT) (k : Int) (v : Nat)
    (hinv : HashInv h) : HashInv (hash_add_unique hashFn h k v) := by
  obtain ⟨hlen, hn, hs⟩ := hinv
  have hpos : hashFn k % h.n_buckets < h.buckets.length := by
    rw [hlen]
    exact Nat.mod_lt _ hn
  have hb := bucket_add_unique_eq k v (h.buckets.getD (hashFn k % h.n_buckets) []) (hs _)
  simp only [hash_add_unique, hb]
  by_cases hpres : (bucket_lookup k (h.buckets.getD (hashFn k % h.n_buckets) [])).isSome
  · rw [if_pos hpres]
    exact ⟨hlen, hn, hs⟩
  · rw [if_neg hpres]
    refine ⟨by simp [hlen], hn, ?_⟩
    intro pos
    simp only
    by_cases hp : pos = hashFn k % h.n_buckets
    · subst hp
      rw [getD_set_self _ _ _ hpos]
      exact bucket_add_sorted k v _ (hs _)
    · rw [getD_set_other _ _ _ _ hp]
      exact hs pos

theorem hash_add_unique_lookup (hashFn : Int → Nat) (h : HashT) (k : Int) (v : Nat)
    (q : Int) (hinv : HashInv h) :
    table_lookup hashFn (hash_add_unique hashFn h k v) q
      = if (table_lookup hashFn h k).isSome then table_lookup hashFn h q
        else if q = k then some v else table_lookup hashFn h q := by
  obtain ⟨hlen, hn, hs⟩ := hinv
  have hpos : hashFn k % h.n_buckets < h.buckets.length := by
    rw [hlen]
    exact Nat.mod_lt _ hn
  have hb := bucket_add_unique_eq k v (h.buckets.getD (hashFn k % h.n_buckets) []) (hs _)
  simp only [hash_add_unique, hb]
  by_cases hpres : (bucket_lookup k (h.buckets.getD (hashFn k % h.n_buckets) [])).isSome
  · rw [if_pos hpres]
    have hpres' : (table_lookup hashFn h k).isSome = true := hpres
    rw [if_pos hpres']
  · rw [if_neg hpres]
    have hnp : ¬ (table_lookup hashFn h k).isSome = true := hpres
    rw [if_neg hnp]
    simp only [table_lookup]
    by_cases hp : hashFn q % h.n_buckets = hashFn k % h.n_buckets
    · rw [hp, getD_set_self _ _ _ hpos]
      rw [bucket_lookup_add]
    · rw [getD_set_other _ _ _ _ hp]
      have hqk : ¬ q = k := fun hc => hp (by rw [hc])
      rw [if_neg hqk]

theorem hash_del_inv (hashFn : Int → Nat) (h : HashT) (k : Int)
    (hinv : HashInv h) : HashInv (hash_del hashFn h k).1 := by
  obtain ⟨hlen, hn, hs⟩ := hinv
  have hpos : hashFn k % h.n_buckets < h.buckets.length := by
    rw [hlen]
    exact Nat.mod_lt _ hn
  cases hfe : hash_find_entry hashFn h k with
  | none =>
      simp only [hash_del, hfe]
      exact ⟨hlen, hn, hs⟩
  | some pr =>
      simp only [hash_del, hfe]
      refine ⟨by simp [hlen], hn, ?_⟩
      intro pos
      simp only
      by_cases hp : pos = hashFn k % h.n_buckets
      · subst hp
        rw [getD_set_self _ _ _ hpos]
        exact bucket_erase_sorted _ _ (hs _)
      · rw [getD_set_other _ _ _ _ hp]
        exact hs pos

theorem hash_del_lookup (hashFn : Int → Nat) (h : HashT) (k : Int) (q : Int)
    (hinv : HashInv h) :
    table_lookup hashFn (hash_del hashFn h k).1 q
      = if q = k then none else table_lookup hashFn h q := by
  obtain ⟨hlen, hn, hs⟩ := hinv
  have hpos : hashFn k % h.n_buckets < h.buckets.length := by
    rw [hlen]
    exact Nat.mod_lt _ hn
  cases hfe : hash_find_entry hashFn h k with
  | none =>
      have hfind : hash_find hashFn h k = none := by
        simp [hash_find, hfe]
      have hlk : table_lookup hashFn h k = none := by
        rw [← hash_find_eq_lookup hashFn h k hs]
        exact hfind
      simp only [hash_del, hfe]
      by_cases hq : q = k
      · subst hq
        rw [if_pos rfl]
        exact hlk
      · rw [if_neg hq]
  | some pr =>
      obtain ⟨idx, e⟩ := pr
      obtain ⟨hget, hk⟩ := hash_find_entry_some_spec hashFn h k idx e hfe
      simp only [hash_del, hfe, table_lookup]
      by_cases hp : hashFn q % h.n_buckets = hashFn k % h.n_buckets
      · rw [hp, getD_set_self _ _ _ hpos]
        exact bucket_lookup_erase _ idx e k q (hs _) hget hk
      · rw [getD_set_other _ _ _ _ hp]
        have hqk : ¬ q = k := fun hc => hp (by rw [hc])
        rw [if_neg hqk]

theorem hash_apply_inv (hashFn : Int → Nat) (h : HashT) (op : HashOp)
    (hinv : HashInv h) : HashInv (hash_apply hashFn h op) := by
  cases op with
  | add k v => exact hash_add_inv hashFn h k v hinv
  | addUnique k v => exact hash_add_unique_inv hashFn h k v hinv
  | del k => exact hash_del_inv hashFn h k hinv

theorem hash_apply_lookup (hashFn : Int → Nat) (h : HashT) (op : HashOp) (q : Int)
    (hinv : HashInv h) :
    table_lookup hashFn (hash_apply hashFn h op) q
      = hash_model_apply (table_lookup hashFn h) op q := by
  cases op with
  | add k v => exact hash_add_lookup hashFn h k v q hinv
  | addUnique k v => exact hash_add_unique_lookup hashFn h k v q hinv
  | del k => exact hash_del_lookup hashFn h k q hinv

theorem hash_run_inv (hashFn : Int → Nat) (ops : List HashOp) (h : HashT)
    (hinv : HashInv h) : HashInv (hash_run hashFn h ops) := by
  induction ops generalizing h with
  | nil => exact hinv
  | cons op ops ih =>
      exact ih (hash_apply hashFn h op) (hash_apply_inv hashFn h op hinv)

theorem hash_run_lookup (hashFn : Int → Nat) (ops : List HashOp) (h : HashT)
    (m : Int → Option Nat) (hinv : HashInv h)
    (hm : ∀ q, table_lookup hashFn h q = m q) :
    ∀ q, table_lookup hashFn (hash_run hashFn h ops) q
      = (ops.foldl hash_model_apply m) q := by
  induction ops generalizing h m with
  | nil => exact hm
  | cons op ops ih =>
      have hfun : table_lookup hashFn h = m := funext hm
      refine ih (hash_apply hashFn h op) (hash_model_apply m op)
        (hash_apply_inv hashFn h op hinv) ?_
      intro q
      rw [hash_apply_lookup hashFn h op q hinv, hfun]

theorem hash_internal_new_inv (n : Nat) (hn : 0 < n) : HashInv (hash_internal_new n) := by
  refine ⟨by simp [hash_internal_new], by simp [hash_internal_new, hn], ?_⟩
  intro pos
  simp only [hash_internal_new]
  rw [getD_replicate_nil]
  exact List.chain'_nil

/-- C10: starting from a fresh table with a positive number of buckets,
any sequence of `hash_add`, `hash_add_unique` and `hash_del` operations
leaves every bucket strictly sorted under the key comparator (so no two
entries compare equal), and `hash_find`'s binary search returns exactly
the reference-map value: the stored value for every present key and
NULL for every absent one. -/
theorem C10_hash_sorted_buckets_find (hashFn : Int → Nat) (n : Nat) (hn : 0 < n)
    (ops : List HashOp) :
    (∀ pos, bucketSorted
        ((hash_run hashFn (hash_internal_new n) ops).buckets.getD pos [])) ∧
    (∀ key, hash_find hashFn (hash_run hashFn (hash_internal_new n) ops) key
        = hash_model ops key) := by
  have hinv0 : HashInv (hash_internal_new n) := hash_internal_new_inv n hn
  have hinv : HashInv (hash_run hashFn (hash_internal_new n) ops) :=
    hash_run_inv hashFn ops _ hinv0
  refine ⟨hinv.2.2, ?_⟩
  intro key
  rw [hash_find_eq_lookup hashFn _ key hinv.2.2]
  refine hash_run_lookup hashFn ops _ (fun _ => none) hinv0 ?_ key
  intro q
  simp only [table_lookup, hash_internal_new]
  rw [getD_replicate_nil]
  rfl

/-- C10 witness: concrete table with 4 buckets and a mixed operation
sequence, looked up at a present and an absent key. -/
theorem C10_hash_sorted_buckets_find_witness :
    (0 < 4) ∧
    hash_find (fun k => k.natAbs)
        (hash_run (fun k => k.natAbs) (hash_internal_new 4)
          [HashOp.add 1 10, HashOp.add 5 2, HashOp.add 9 3, HashOp.addUnique 5 4,
           HashOp.del 5])
        9
      = hash_model
          [HashOp.add 1 10, HashOp.add 5 2, HashOp.add 9 3, HashOp.addUnique 5 4,
           HashOp.del 5] 9 :=
  ⟨by decide,
    (C10_hash_sorted_buckets_find (fun k => k.natAbs) 4 (by decide)
      [HashOp.add 1 10, HashOp.add 5 2, HashOp.add 9 3, HashOp.addUnique 5 4,
       HashOp.del 5]).2 9⟩

/-- C5 witness: a one-entry old map with a teardown, re-registered with
a one-entry new map. -/
theorem C5_teardown_before_init_witness :
    ((0 : Nat) < 1) ∧
    (lwan_set_url_map_events
        (some [{ hasHandler := true, hasInit := true, hasShutdown := true, data := 7 }])
        [{ hasHandler := true, hasInit := true, hasShutdown := false, data := 0 }]).count
      (RouterEvent.teardown 0 7) = 1 := by
  refine ⟨by decide, ?_⟩
  exact (C5_teardown_before_init
    [{ hasHandler := true, hasInit := true, hasShutdown := true, data := 7 }]
    [{ hasHandler := true, hasInit := true, hasShutdown := false, data := 0 }]).2.2
    0 (by decide) rfl rfl

/-! ### Reachability of the concrete executions -/

theorem c1_state_reachable : WReachable cfgA 8 c1_state := by
  refine Relation.ReflTransGen.head (WStep.accept 1 _ (by decide)) ?_
  refine Relation.ReflTransGen.head (WStep.dispatch 1 false true false _ (by decide)) ?_
  refine Relation.ReflTransGen.head (WStep.accept 2 _ (by decide)) ?_
  exact Relation.ReflTransGen.single (WStep.dispatch 2 false false false _ (by decide))

theorem c2_state_reachable : WReachable cfgA 8 c2_state := by
  refine Relation.ReflTransGen.head (WStep.accept 1 _ (by decide)) ?_
  refine Relation.ReflTransGen.head (WStep.dispatch 1 false true false _ (by decide)) ?_
  exact Relation.ReflTransGen.single (WStep.dispatch 1 false true false _ (by decide))

theorem c3_state_reachable : WReachable cfgA 8 c3_state := by
  refine Relation.ReflTransGen.head (WStep.accept 1 _ (by decide)) ?_
  refine Relation.ReflTransGen.head (WStep.dispatch 1 false true true _ (by decide)) ?_
  refine Relation.ReflTransGen.head (WStep.dispatch 1 true false false _ (by decide)) ?_
  exact Relation.ReflTransGen.single (WStep.accept 1 _ (by decide))

theorem c7_state_reaped_reachable : WReachable cfgB 8 c7_state_reaped := by
  refine Relation.ReflTransGen.head (WStep.accept 1 _ (by decide)) ?_
  refine Relation.ReflTransGen.head (WStep.dispatch 1 false true true _ (by decide)) ?_
  refine Relation.ReflTransGen.head (WStep.dispatch 1 true false false _ (by decide)) ?_
  exact Relation.ReflTransGen.single (WStep.timeout _)

theorem c7_state_next_event_reachable : WReachable cfgB 8 c7_state_next_event := by
  refine Relation.ReflTransGen.trans c7_state_reaped_reachable ?_
  refine Relation.ReflTransGen.head (WStep.accept 1 _ (by decide)) ?_
  exact Relation.ReflTransGen.single (WStep.dispatch 1 false true true _ (by decide))

/-! ### C1, C2, C3, C7: counterexample evaluations -/

/-- C1 counterexample: a reachable state whose death-queue walk from
`first` to `last` has `time_to_die` values [5, 0] — not non-decreasing.
The claim's justification fails because a non-keep-alive,
non-resumable connection is enrolled with `time_to_die = death_time`
(no timeout added), below the `death_time + keep_alive_timeout` of an
earlier keep-alive enrollment. -/
theorem C1_ttd_not_monotone :
    WReachable cfgA 8 c1_state ∧
    dq_ttds cfgA c1_state = [5, 0] ∧
    ¬ List.Chain' (fun a b => a ≤ b) (dq_ttds cfgA c1_state) := by
  refine ⟨c1_state_reachable, by decide, ?_⟩
  intro hchain
  rw [show dq_ttds cfgA c1_state = [5, 0] from by decide] at hchain
  rw [List.chain'_cons] at hchain
  omega

/-- C2: a reachable state in which fd 1 is `alive` yet appears twice in
the death-queue ring: serving a second request on a kept-alive
connection spawns a fresh coroutine whose `_reset_request` zeroes
`flags.alive`, so the enrollment guard `if (!request->flags.alive)`
re-appends the fd. -/
theorem C2_duplicate_death_queue_entries :
    WReachable cfgA 8 c2_state ∧
    (c2_state.requests 1).alive = true ∧
    dq_fds cfgA c2_state = [1, 1] ∧
    (dq_fds cfgA c2_state).count 1 = 2 :=
  ⟨c2_state_reachable, by decide, by decide, by decide⟩

/-- C3 counterexample: after a mid-write hangup the slot keeps
`write_events = true`; when the fd number is reused, the acceptor's
`epoll_ctl(ADD)` programs read interest, so the tracked fd's
`write_events` no longer matches the most recently programmed
direction. -/
theorem C3_write_events_mismatch_on_reuse :
    WReachable cfgA 8 c3_state ∧
    c3_state.fd_open 1 = true ∧
    (c3_state.requests 1).write_events = true ∧
    maskWantsWrite (c3_state.epoll_interest 1) = false :=
  ⟨c3_state_reachable, by decide, by decide, by decide⟩

/-- C7 counterexample: a hangup arrives while `should_resume_coro` is
true; the subsequent reap pass consumes the death-queue entry but skips
the tombstone before `_cleanup_coro`, and a later event on the reused
fd also skips the cleanup because `should_resume_coro` is still set —
the coroutine (id 0) is never freed, contradicting "freed by
`_cleanup_coro` on the next event or reap pass". -/
theorem C7_coro_not_freed_on_reap :
    WReachable cfgB 8 c7_state_reaped ∧
    c7_state_reaped.death_queue_population = 0 ∧
    (c7_state_reaped.requests 1).coro = some 0 ∧
    c7_state_reaped.freed_coros = [] ∧
    WReachable cfgB 8 c7_state_next_event ∧
    (c7_state_next_event.requests 1).coro = some 0 ∧
    c7_state_next_event.freed_coros = [] :=
  ⟨c7_state_reaped_reachable, by decide, by decide, by decide,
   c7_state_next_event_reachable, by decide, by decide⟩

/-! ### Worker-reactor invariant: characterization lemmas -/

theorem cleanup_coro_fields (c : Conn) :
    ((cleanup_coro c).1).should_resume_coro = c.should_resume_coro ∧
    ((cleanup_coro c).1).write_events = c.write_events ∧
    ((cleanup_coro c).1).alive = c.alive ∧
    ((cleanup_coro c).1).is_keep_alive = c.is_keep_alive ∧
    ((cleanup_coro c).1).fd = c.fd ∧
    ((cleanup_coro c).1).time_to_die = c.time_to_die := by
  rcases hc : c.coro with _ | cid
  · simp [cleanup_coro, hc]
  · by_cases hsr : c.should_resume_coro <;> simp [cleanup_coro, hc, hsr]

theorem cleanup_coro_freed (c : Conn) (cid : Nat)
    (h : (cleanup_coro c).2 = some cid) :
    c.coro = some cid ∧ c.should_resume_coro = false ∧
    ((cleanup_coro c).1).coro = none := by
  rcases hc : c.coro with _ | cid0
  · simp [cleanup_coro, hc] at h
  · by_cases hsr : c.should_resume_coro
    · simp [cleanup_coro, hc, hsr] at h
    · simp only [cleanup_coro, hc, hsr] at h ⊢
      simp at h
      subst h
      simp [hsr]

theorem cleanup_coro_not_freed (c : Conn)
    (h : (cleanup_coro c).2 = none) :
    ((cleanup_coro c).1).coro = c.coro := by
  rcases hc : c.coro with _ | cid0
  · simp [cleanup_coro, hc]
  · by_cases hsr : c.should_resume_coro
    · simp [cleanup_coro, hc, hsr]
    · simp [cleanup_coro, hc, hsr] at h

theorem dispatch_requests_other (cfg : WConfig) (f : Nat) (hup kA res : Bool)
    (s : WState) (g : Nat) (hg : g ≠ f) :
    (dispatch_step cfg f hup kA res s).requests g = s.requests g := by
  simp only [dispatch_step]
  repeat' split
  all_goals simp [upd, hg]

theorem dispatch_frame (cfg : WConfig) (f : Nat) (hup kA res : Bool) (s : WState) :
    (dispatch_step cfg f hup kA res s).death_time = s.death_time ∧
    (dispatch_step cfg f hup kA res s).dirty_at_add = s.dirty_at_add := by
  simp only [dispatch_step]
  repeat' split
  all_goals exact ⟨rfl, rfl⟩

theorem dispatch_fd_open_nohup (cfg : WConfig) (f : Nat) (kA res : Bool) (s : WState) :
    (dispatch_step cfg f false kA res s).fd_open = s.fd_open := by
  simp only [dispatch_step]
  repeat' split
  all_goals first
    | rfl
    | simp_all

theorem dispatch_ghost_spec (cfg : WConfig) (f : Nat) (hup kA res : Bool) (s : WState) :
    ((dispatch_step cfg f hup kA res s).ghost_queue = s.ghost_queue ∧
      (dispatch_step cfg f hup kA res s).death_queue_population
        = s.death_queue_population) ∨
    ((dispatch_step cfg f hup kA res s).ghost_queue
        = s.ghost_queue ++ [(f, s.death_time)] ∧
      (dispatch_step cfg f hup kA res s).death_queue_population
        = s.death_queue_population + 1) := by
  simp only [dispatch_step]
  repeat' split
  all_goals first
    | exact Or.inl ⟨rfl, rfl⟩
    | exact Or.inr ⟨rfl, rfl⟩

theorem maskWantsWrite_events_by_write_flag (b : Bool) :
    maskWantsWrite (events_by_write_flag b) = !b := by
  cases b <;> decide

theorem maskWantsWrite_epoll_add_mask : maskWantsWrite epoll_add_mask = false := by
  decide

/-- The non-hangup dispatch path always ends with a resumed coroutine:
`should_resume_coro` and `write_events` both equal the resume result,
the slot is marked alive, and it holds a coroutine. -/
theorem dispatch_conn_spec (cfg : WConfig) (f : Nat) (kA res : Bool) (s : WState) :
    ((dispatch_step cfg f false kA res s).requests f).should_resume_coro = res ∧
    ((dispatch_step cfg f false kA res s).requests f).write_events = res ∧
    ((dispatch_step cfg f false kA res s).requests f).alive = true ∧
    ∃ cid, ((dispatch_step cfg f false kA res s).requests f).coro = some cid := by
  rcases hc : (s.requests f).coro with _ | cid
  · cases res <;>
      simp [dispatch_step, cleanup_coro, spawn_coro_if_needed, resume_coro_if_needed,
        reset_request, zeroConn, hc, upd]
  · by_cases hsr : (s.requests f).should_resume_coro
    · by_cases hst : s.coro_started f
      · cases res <;>
          by_cases hwe : (s.requests f).write_events <;>
            simp [dispatch_step, cleanup_coro, spawn_coro_if_needed, resume_coro_if_needed,
              reset_request, zeroConn, hc, hsr, hst, hwe, upd] <;>
              split <;> simp_all [upd]
      · cases res <;>
          simp [dispatch_step, cleanup_coro, spawn_coro_if_needed, resume_coro_if_needed,
            reset_request, zeroConn, hc, hsr, hst, upd] <;>
            split <;> simp_all [upd]
    · cases res <;>
        simp [dispatch_step, cleanup_coro, spawn_coro_if_needed, resume_coro_if_needed,
          reset_request, zeroConn, hc, hsr, upd]

/-- Coroutine-id bookkeeping of the non-hangup dispatch path: either
the existing coroutine is kept, or a fresh one is spawned (freeing the
finished one, if present). -/
theorem dispatch_coro_bookkeeping (cfg : WConfig) (f : Nat) (kA res : Bool) (s : WState) :
    (∃ cid, (s.requests f).coro = some cid ∧
        (s.requests f).should_resume_coro = true ∧
        (dispatch_step cfg f false kA res s).freed_coros = s.freed_coros ∧
        (dispatch_step cfg f false kA res s).next_coro_id = s.next_coro_id ∧
        ((dispatch_step cfg f false kA res s).requests f).coro = some cid) ∨
    ((s.requests f).coro = none ∧
        (dispatch_step cfg f false kA res s).freed_coros = s.freed_coros ∧
        (dispatch_step cfg f false kA res s).next_coro_id = s.next_coro_id + 1 ∧
        ((dispatch_step cfg f false kA res s).requests f).coro = some s.next_coro_id) ∨
    (∃ cid0, (s.requests f).coro = some cid0 ∧
        (s.requests f).should_resume_coro = false ∧
        (dispatch_step cfg f false kA res s).freed_coros = s.freed_coros ++ [cid0] ∧
        (dispatch_step cfg f false kA res s).next_coro_id = s.next_coro_id + 1 ∧
        ((dispatch_step cfg f false kA res s).requests f).coro = some s.next_coro_id) := by
  rcases hc : (s.requests f).coro with _ | cid
  · refine Or.inr (Or.inl ⟨rfl, ?_, ?_, ?_⟩) <;>
      cases res <;>
        simp [dispatch_step, cleanup_coro, spawn_coro_if_needed, resume_coro_if_needed,
          reset_request, zeroConn, hc, upd]
  · by_cases hsr : (s.requests f).should_resume_coro
    · refine Or.inl ⟨cid, rfl, hsr, ?_, ?_, ?_⟩ <;>
        (by_cases hst : s.coro_started f <;>
          cases res <;>
            by_cases hwe : (s.requests f).write_events <;>
              simp [dispatch_step, cleanup_coro, spawn_coro_if_needed,
                resume_coro_if_needed, reset_request, zeroConn, hc, hsr, hst, hwe, upd] <;>
                split <;> simp_all [upd])
    · refine Or.inr (Or.inr ⟨cid, rfl, by simpa using hsr, ?_, ?_, ?_⟩) <;>
        cases res <;>
          simp [dispatch_step, cleanup_coro, spawn_coro_if_needed, resume_coro_if_needed,
            reset_request, zeroConn, hc, hsr, upd]

/-- The non-hangup dispatch path always resumes, so the slot's
`coro_started` ghost flag is set. -/
theorem dispatch_started (cfg : WConfig) (f : Nat) (kA res : Bool) (s : WState) :
    (dispatch_step cfg f false kA res s).coro_started = upd s.coro_started f true := by
  rcases hc : (s.requests f).coro with _ | cid
  · cases res <;>
      simp [dispatch_step, cleanup_coro, spawn_coro_if_needed, resume_coro_if_needed,
        reset_request, zeroConn, hc, upd]
  · by_cases hsr : (s.requests f).should_resume_coro
    · by_cases hst : s.coro_started f
      · cases res <;>
          by_cases hwe : (s.requests f).write_events <;>
            simp [dispatch_step, cleanup_coro, spawn_coro_if_needed, resume_coro_if_needed,
              reset_request, zeroConn, hc, hsr, hst, hwe, upd] <;>
              split <;> simp_all [upd]
      · cases res <;>
          simp [dispatch_step, cleanup_coro, spawn_coro_if_needed, resume_coro_if_needed,
            reset_request, zeroConn, hc, hsr, hst, upd] <;>
            split <;> simp_all [upd]
    · cases res <;>
        simp [dispatch_step, cleanup_coro, spawn_coro_if_needed, resume_coro_if_needed,
          reset_request, zeroConn, hc, hsr, upd]

/-- Epoll-interest bookkeeping of the non-hangup dispatch path: either
no `epoll_ctl(MOD)` was issued and `write_events` is unchanged (or was
freshly reset to false for a slot without a live resumable coroutine),
or a MOD was issued whose direction matches the final `write_events`. -/
theorem dispatch_interest_spec (cfg : WConfig) (f : Nat) (kA res : Bool) (s : WState) :
    ((dispatch_step cfg f false kA res s).epoll_interest = s.epoll_interest ∧
      (((dispatch_step cfg f false kA res s).requests f).write_events
          = (s.requests f).write_events ∨
        (((dispatch_step cfg f false kA res s).requests f).write_events = false ∧
          ((s.requests f).should_resume_coro = false ∨ (s.requests f).coro = none ∨
            s.coro_started f = false)))) ∨
    (∃ m, (dispatch_step cfg f false kA res s).epoll_interest = upd s.epoll_interest f m ∧
      maskWantsWrite m = ((dispatch_step cfg f false kA res s).requests f).write_events) := by
  rcases hc : (s.requests f).coro with _ | cid
  · cases res
    · refine Or.inl ⟨?_, Or.inr ⟨?_, Or.inr (Or.inl rfl)⟩⟩ <;>
        simp [dispatch_step, cleanup_coro, spawn_coro_if_needed, resume_coro_if_needed,
          reset_request, zeroConn, hc, upd]
    · refine Or.inr ⟨events_by_write_flag false, ?_, ?_⟩ <;>
        simp [dispatch_step, cleanup_coro, spawn_coro_if_needed, resume_coro_if_needed,
          reset_request, zeroConn, hc, upd, maskWantsWrite_events_by_write_flag]
  · by_cases hsr : (s.requests f).should_resume_coro
    · by_cases hst : s.coro_started f
      · by_cases hres : res = (s.requests f).write_events
        · subst hres
          refine Or.inl ⟨?_, Or.inl ?_⟩ <;>
            by_cases hwe : (s.requests f).write_events <;>
              simp [dispatch_step, cleanup_coro, spawn_coro_if_needed,
                resume_coro_if_needed, reset_request, zeroConn, hc, hsr, hst, hwe, upd] <;>
                split <;> simp_all [upd]
        · have hwe : (s.requests f).write_events = (!res) := by
            cases res <;> cases h2 : (s.requests f).write_events <;> simp_all
          refine Or.inr ⟨events_by_write_flag (s.requests f).write_events, ?_, ?_⟩ <;>
            cases res <;>
              simp [dispatch_step, cleanup_coro, spawn_coro_if_needed,
                resume_coro_if_needed, reset_request, zeroConn, hc, hsr, hst, hwe,
                upd, maskWantsWrite_events_by_write_flag] <;>
                split <;> simp_all [upd]
      · cases res
        · refine Or.inl ⟨?_, Or.inr ⟨?_, Or.inr (Or.inr (by simpa using hst))⟩⟩ <;>
            simp [dispatch_step, cleanup_coro, spawn_coro_if_needed, resume_coro_if_needed,
              reset_request, zeroConn, hc, hsr, hst, upd] <;>
              split <;> simp_all [upd]
        · refine Or.inr ⟨events_by_write_flag false, ?_, ?_⟩ <;>
            simp [dispatch_step, cleanup_coro, spawn_coro_if_needed, resume_coro_if_needed,
              reset_request, zeroConn, hc, hsr, hst, upd,
              maskWantsWrite_events_by_write_flag] <;>
              split <;> simp_all [upd]
    · cases res
      · refine Or.inl ⟨?_, Or.inr ⟨?_, Or.inl (by simpa using hsr)⟩⟩ <;>
          simp [dispatch_step, cleanup_coro, spawn_coro_if_needed, resume_coro_if_needed,
            reset_request, zeroConn, hc, hsr, upd]
      · refine Or.inr ⟨events_by_write_flag false, ?_, ?_⟩ <;>
          simp [dispatch_step, cleanup_coro, spawn_coro_if_needed, resume_coro_if_needed,
            reset_request, zeroConn, hc, hsr, upd, maskWantsWrite_events_by_write_flag]

theorem lwan_init_loop_flags (requests : Nat → Conn) (n f : Nat) :
    ((lwan_init_loop requests n) f).coro = (requests f).coro ∧
    ((lwan_init_loop requests n) f).should_resume_coro
        = (requests f).should_resume_coro ∧
    ((lwan_init_loop requests n) f).write_events = (requests f).write_events := by
  induction n generalizing requests with
  | zero => exact ⟨rfl, rfl, rfl⟩
  | succ n ih =>
      simp only [lwan_init_loop]
      rcases ih (upd requests (Nat.succ n)
        { requests (Nat.succ n) with
          response_buffer := some (Nat.succ n), lwan := true }) with ⟨h1, h2, h3⟩
      refine ⟨?_, ?_, ?_⟩
      · rw [h1]
        by_cases hf : f = Nat.succ n
        · subst hf
          rw [upd_self]
        · rw [upd_other _ _ _ _ hf]
      · rw [h2]
        by_cases hf : f = Nat.succ n
        · subst hf
          rw [upd_self]
        · rw [upd_other _ _ _ _ hf]
      · rw [h3]
        by_cases hf : f = Nat.succ n
        · subst hf
          rw [upd_self]
        · rw [upd_other _ _ _ _ hf]

theorem winv_init (rlim_cur : Nat) : WInv (worker_init rlim_cur) := by
  have hflags : ∀ f, ((lwan_init_requests rlim_cur) f).coro = none ∧
      ((lwan_init_requests rlim_cur) f).should_resume_coro = false ∧
      ((lwan_init_requests rlim_cur) f).write_events = false := by
    intro f
    have := lwan_init_loop_flags (fun _ => zeroConn) (rlim_cur - 1) f
    simpa [lwan_init_requests, zeroConn] using this
  refine
    { wc := ?_, coro_none := ?_, started_of_coro := ?_, interest := ?_,
      freed_nodup := ?_, live_fresh := ?_, live_not_freed := ?_, freed_lt := ?_,
      live_inj := ?_, ghost_len := ?_, ghost_sorted := ?_, ghost_bound := ?_ }
  · intro f
    show (lwan_init_requests rlim_cur f).should_resume_coro
        = (lwan_init_requests rlim_cur f).write_events
    rw [(hflags f).2.1, (hflags f).2.2]
  · intro f _
    exact (hflags f).2.1
  · intro f cid hcid
    rw [show ((worker_init rlim_cur).requests f).coro
        = (lwan_init_requests rlim_cur f).coro from rfl, (hflags f).1] at hcid
    exact Option.noConfusion hcid
  · intro f hopen
    simp [worker_init] at hopen
  · exact List.nodup_nil
  · intro f cid hcid
    rw [show ((worker_init rlim_cur).requests f).coro
        = (lwan_init_requests rlim_cur f).coro from rfl, (hflags f).1] at hcid
    exact Option.noConfusion hcid
  · intro f cid hcid
    rw [show ((worker_init rlim_cur).requests f).coro
        = (lwan_init_requests rlim_cur f).coro from rfl, (hflags f).1] at hcid
    exact Option.noConfusion hcid
  · intro cid hcid
    simp [worker_init] at hcid
  · intro f g cid hf hg
    rw [show ((worker_init rlim_cur).requests f).coro
        = (lwan_init_requests rlim_cur f).coro from rfl, (hflags f).1] at hf
    exact Option.noConfusion hf
  · rfl
  · exact List.chain'_nil
  · intro p hp
    simp [worker_init] at hp

theorem winv_accept (f : Nat) (s : WState) (hinv : WInv s) :
    WInv (accept_step f s) := by
  refine
    { wc := hinv.wc, coro_none := hinv.coro_none, started_of_coro := hinv.started_of_coro,
      interest := ?_, freed_nodup := hinv.freed_nodup, live_fresh := hinv.live_fresh,
      live_not_freed := hinv.live_not_freed, freed_lt := hinv.freed_lt,
      live_inj := hinv.live_inj, ghost_len := hinv.ghost_len,
      ghost_sorted := hinv.ghost_sorted, ghost_bound := hinv.ghost_bound }
  intro g hopen hdirty
  by_cases hg : g = f
  · subst hg
    simp only [accept_step, upd_self] at hdirty ⊢
    rw [maskWantsWrite_epoll_add_mask, hdirty]
  · simp only [accept_step, upd_other _ _ _ _ hg] at hdirty hopen ⊢
    exact hinv.interest g hopen hdirty

theorem winv_dispatch (cfg : WConfig) (f : Nat) (hup kA res : Bool) (s : WState)
    (hinv : WInv s) (hopen : s.fd_open f = true) :
    WInv (dispatch_step cfg f hup kA res s) := by
  by_cases hhup : hup = true
  · subst hhup
    have heq : dispatch_step cfg f true kA res s
        = { s with
            requests := upd s.requests f (handle_hangup { s.requests f with fd := f })
            fd_open := upd s.fd_open f false } := rfl
    rw [heq]
    refine
      { wc := ?_, coro_none := ?_, started_of_coro := ?_, interest := ?_,
        freed_nodup := hinv.freed_nodup, live_fresh := ?_, live_not_freed := ?_,
        freed_lt := hinv.freed_lt, live_inj := ?_, ghost_len := hinv.ghost_len,
        ghost_sorted := hinv.ghost_sorted, ghost_bound := hinv.ghost_bound }
    · intro g
      by_cases hg : g = f
      · subst hg
        simp only [upd_self, handle_hangup]
        exact hinv.wc g
      · simp only [upd_other _ _ _ _ hg]
        exact hinv.wc g
    · intro g hg
      by_cases hgf : g = f
      · subst hgf
        simp only [upd_self, handle_hangup] at hg ⊢
        exact hinv.coro_none g hg
      · simp only [upd_other _ _ _ _ hgf] at hg ⊢
        exact hinv.coro_none g hg
    · intro g cid hg
      by_cases hgf : g = f
      · subst hgf
        simp only [upd_self, handle_hangup] at hg
        exact hinv.started_of_coro g cid hg
      · simp only [upd_other _ _ _ _ hgf] at hg
        exact hinv.started_of_coro g cid hg
    · intro g hgopen hgdirty
      by_cases hgf : g = f
      · subst hgf
        simp only [upd_self] at hgopen
        exact Bool.noConfusion hgopen
      · simp only [upd_other _ _ _ _ hgf] at hgopen ⊢
        exact hinv.interest g hgopen hgdirty
    · intro g cid hg
      by_cases hgf : g = f
      · subst hgf
        simp only [upd_self, handle_hangup] at hg
        exact hinv.live_fresh g cid hg
      · simp only [upd_other _ _ _ _ hgf] at hg
        exact hinv.live_fresh g cid hg
    · intro g cid hg
      by_cases hgf : g = f
      · subst hgf
        simp only [upd_self, handle_hangup] at hg
        exact hinv.live_not_freed g cid hg
      · simp only [upd_other _ _ _ _ hgf] at hg
        exact hinv.live_not_freed g cid hg
    · have hkey : ∀ x, (upd s.requests f
          (handle_hangup { s.requests f with fd := f }) x).coro = (s.requests x).coro := by
        intro x
        by_cases hx : x = f
        · subst hx
          simp [upd_self, handle_hangup]
        · rw [upd_other _ _ _ _ hx]
      intro g g2 cid hg hg2
      rw [hkey g] at hg
      rw [hkey g2] at hg2
      exact hinv.live_inj g g2 cid hg hg2
  · have hfalse : hup = false := by simpa using hhup
    subst hfalse
    have hcs := dispatch_conn_spec cfg f kA res s
    have hbk := dispatch_coro_bookkeeping cfg f kA res s
    have hst := dispatch_started cfg f kA res s
    have hint := dispatch_interest_spec cfg f kA res s
    have hgh := dispatch_ghost_spec cfg f false kA res s
    have hfr := dispatch_frame cfg f false kA res s
    have hfo := dispatch_fd_open_nohup cfg f kA res s
    have hother := fun g (hg : g ≠ f) => dispatch_requests_other cfg f false kA res s g hg
    obtain ⟨hsr', hwe', halive', cid', hcid'⟩ := hcs
    have hnext_ge : s.next_coro_id ≤ (dispatch_step cfg f false kA res s).next_coro_id := by
      rcases hbk with ⟨c, _, _, _, hn, _⟩ | ⟨_, _, hn, _⟩ | ⟨c, _, _, _, hn, _⟩ <;>
        omega
    refine
      { wc := ?_, coro_none := ?_, started_of_coro := ?_, interest := ?_,
        freed_nodup := ?_, live_fresh := ?_, live_not_freed := ?_, freed_lt := ?_,
        live_inj := ?_, ghost_len := ?_, ghost_sorted := ?_, ghost_bound := ?_ }
    · intro g
      by_cases hg : g = f
      · subst hg
        rw [hsr', hwe']
      · rw [hother g hg]
        exact hinv.wc g
    · intro g hg
      by_cases hgf : g = f
      · subst hgf
        rw [hcid'] at hg
        exact Option.noConfusion hg
      · rw [hother g hgf] at hg ⊢
        exact hinv.coro_none g hg
    · intro g cid hg
      rw [hst]
      by_cases hgf : g = f
      · subst hgf
        rw [upd_self]
      · rw [upd_other _ _ _ _ hgf]
        rw [hother g hgf] at hg
        exact hinv.started_of_coro g cid hg
    · intro g hgopen hgdirty
      rw [hfo] at hgopen
      rw [hfr.2] at hgdirty
      by_cases hgf : g = f
      · subst hgf
        rcases hint with ⟨hieq, hwe⟩ | ⟨m, hieq, hm⟩
        · rw [hieq]
          rcases hwe with hwe | ⟨hwe0, hreason⟩
          · rw [hwe]
            exact hinv.interest g hgopen hgdirty
          · rw [hwe0]
            have hwe_old : (s.requests g).write_events = false := by
              rcases hreason with hr | hr | hr
              · rw [← hinv.wc g, hr]
              · rw [← hinv.wc g, hinv.coro_none g hr]
              · rcases hco : (s.requests g).coro with _ | c
                · rw [← hinv.wc g, hinv.coro_none g hco]
                · have := hinv.started_of_coro g c hco
                  rw [this] at hr
                  exact Bool.noConfusion hr
            rw [← hwe_old]
            exact hinv.interest g hgopen hgdirty
        · rw [hieq, upd_self]
          exact hm
      · rcases hint with ⟨hieq, _⟩ | ⟨m, hieq, _⟩
        · rw [hieq, hother g hgf]
          exact hinv.interest g hgopen hgdirty
        · rw [hieq, upd_other _ _ _ _ hgf, hother g hgf]
          exact hinv.interest g hgopen hgdirty
    · rcases hbk with ⟨c, _, _, hfreed, _, _⟩ | ⟨_, hfreed, _, _⟩ | ⟨c, hcoro, _, hfreed, _, _⟩
      · rw [hfreed]
        exact hinv.freed_nodup
      · rw [hfreed]
        exact hinv.freed_nodup
      · rw [hfreed]
        have hnotin : c ∉ s.freed_coros := hinv.live_not_freed f c hcoro
        simp [List.nodup_append, hinv.freed_nodup, hnotin]
    · intro g cid hg
      by_cases hgf : g = f
      · subst hgf
        rcases hbk with ⟨c, hco, _, _, hn, hc'⟩ | ⟨_, _, hn, hc'⟩ | ⟨c, hco, _, _, hn, hc'⟩
        · rw [hc'] at hg
          have : c = cid := Option.some_inj.mp hg
          subst this
          rw [hn]
          exact hinv.live_fresh g c hco
        · rw [hc'] at hg
          have : s.next_coro_id = cid := Option.some_inj.mp hg
          omega
        · rw [hc'] at hg
          have : s.next_coro_id = cid := Option.some_inj.mp hg
          omega
      · rw [hother g hgf] at hg
        have := hinv.live_fresh g cid hg
        omega
    · intro g cid hg
      by_cases hgf : g = f
      · subst hgf
        rcases hbk with ⟨c, hco, _, hfreed, _, hc'⟩ | ⟨hco, hfreed, _, hc'⟩ | ⟨c, hco, _, hfreed, _, hc'⟩
        · rw [hc'] at hg
          have hcc : c = cid := Option.some_inj.mp hg
          subst hcc
          rw [hfreed]
          exact hinv.live_not_freed g c hco
        · rw [hc'] at hg
          have hcc : s.next_coro_id = cid := Option.some_inj.mp hg
          subst hcc
          rw [hfreed]
          intro hmem
          have := hinv.freed_lt _ hmem
          omega
        · rw [hc'] at hg
          have hcc : s.next_coro_id = cid := Option.some_inj.mp hg
          subst hcc
          rw [hfreed]
          intro hmem
          rcases List.mem_append.mp hmem with hmem | hmem
          · have := hinv.freed_lt _ hmem
            omega
          · rw [List.mem_singleton] at hmem
            have := hinv.live_fresh g c hco
            omega
      · rw [hother g hgf] at hg
        rcases hbk with ⟨c, hco, _, hfreed, _, _⟩ | ⟨hco, hfreed, _, _⟩ | ⟨c, hco, _, hfreed, _, _⟩
        · rw [hfreed]
          exact hinv.live_not_freed g cid hg
        · rw [hfreed]
          exact hinv.live_not_freed g cid hg
        · rw [hfreed]
          intro hmem
          rcases List.mem_append.mp hmem with hmem | hmem
          · exact hinv.live_not_freed g cid hg hmem
          · rw [List.mem_singleton] at hmem
            subst hmem
            exact hgf (hinv.live_inj g f cid hg hco)
    · intro cid hmem
      rcases hbk with ⟨c, hco, _, hfreed, hn, _⟩ | ⟨hco, hfreed, hn, _⟩ | ⟨c, hco, _, hfreed, hn, _⟩
      · rw [hfreed] at hmem
        rw [hn]
        exact hinv.freed_lt cid hmem
      · rw [hfreed] at hmem
        rw [hn]
        have := hinv.freed_lt cid hmem
        omega
      · rw [hfreed] at hmem
        rw [hn]
        rcases List.mem_append.mp hmem with hmem | hmem
        · have := hinv.freed_lt cid hmem
          omega
        · rw [List.mem_singleton] at hmem
          subst hmem
          have := hinv.live_fresh f cid hco
          omega
    · intro g g2 cid hg hg2
      by_cases hgf : g = f
      · by_cases hg2f : g2 = f
        · rw [hgf, hg2f]
        · rw [hgf] at hg
          rw [hother g2 hg2f] at hg2
          rcases hbk with ⟨c, hco, _, _, _, hc'⟩ | ⟨hco, _, _, hc'⟩ | ⟨c, hco, _, _, _, hc'⟩
          · rw [hc'] at hg
            have hcc : c = cid := Option.some_inj.mp hg
            subst hcc
            rw [hgf]
            exact hinv.live_inj f g2 c hco hg2
          · rw [hc'] at hg
            have hcc : s.next_coro_id = cid := Option.some_inj.mp hg
            have := hinv.live_fresh g2 cid hg2
            omega
          · rw [hc'] at hg
            have hcc : s.next_coro_id = cid := Option.some_inj.mp hg
            have := hinv.live_fresh g2 cid hg2
            omega
      · by_cases hg2f : g2 = f
        · rw [hg2f] at hg2
          rw [hother g hgf] at hg
          rcases hbk with ⟨c, hco, _, _, _, hc'⟩ | ⟨hco, _, _, hc'⟩ | ⟨c, hco, _, _, _, hc'⟩
          · rw [hc'] at hg2
            have hcc : c = cid := Option.some_inj.mp hg2
            subst hcc
            rw [hg2f]
            exact hinv.live_inj g f c hg hco
          · rw [hc'] at hg2
            have hcc : s.next_coro_id = cid := Option.some_inj.mp hg2
            have := hinv.live_fresh g cid hg
            omega
          · rw [hc'] at hg2
            have hcc : s.next_coro_id = cid := Option.some_inj.mp hg2
            have := hinv.live_fresh g cid hg
            omega
        · rw [hother g hgf] at hg
          rw [hother g2 hg2f] at hg2
          exact hinv.live_inj g g2 cid hg hg2
    · rcases hgh with ⟨hq, hp⟩ | ⟨hq, hp⟩
      · rw [hq, hp]
        exact hinv.ghost_len
      · rw [hq, hp, List.length_append]
        rw [hinv.ghost_len]
        rfl
    · rcases hgh with ⟨hq, _⟩ | ⟨hq, _⟩
      · rw [hq]
        exact hinv.ghost_sorted
      · rw [hq, List.chain'_append]
        refine ⟨hinv.ghost_sorted, List.chain'_singleton _, ?_⟩
        intro x hx y hy
        rw [List.head?_cons, Option.mem_some_iff] at hy
        subst hy
        have hxmem : x ∈ s.ghost_queue := List.mem_of_mem_getLast? hx
        exact hinv.ghost_bound x hxmem
    · intro p hp
      rw [hfr.1]
      rcases hgh with ⟨hq, _⟩ | ⟨hq, _⟩
      · rw [hq] at hp
        exact hinv.ghost_bound p hp
      · rw [hq] at hp
        rcases List.mem_append.mp hp with hp | hp
        · exact hinv.ghost_bound p hp
        · rw [List.mem_singleton] at hp
          subst hp
          exact le_refl _

theorem winv_reap_pop (cfg : WConfig) (s : WState) (hinv : WInv s) :
    WInv { s with
      death_queue_first := (s.death_queue_first + 1) % cfg.max_fd
      death_queue_population := s.death_queue_population - 1
      ghost_queue := s.ghost_queue.tail } := by
  refine
    { wc := hinv.wc, coro_none := hinv.coro_none, started_of_coro := hinv.started_of_coro,
      interest := hinv.interest, freed_nodup := hinv.freed_nodup,
      live_fresh := hinv.live_fresh, live_not_freed := hinv.live_not_freed,
      freed_lt := hinv.freed_lt, live_inj := hinv.live_inj,
      ghost_len := ?_, ghost_sorted := List.Chain'.tail hinv.ghost_sorted,
      ghost_bound := ?_ }
  · show s.ghost_queue.tail.length = s.death_queue_population - 1
    rw [List.length_tail, hinv.ghost_len]
  · intro p hp
    exact hinv.ghost_bound p (List.mem_of_mem_tail hp)

theorem winv_reap_kill (cfg : WConfig) (s : WState) (hinv : WInv s) (f : Nat) :
    WInv { s with
      death_queue_first := (s.death_queue_first + 1) % cfg.max_fd
      death_queue_population := s.death_queue_population - 1
      ghost_queue := s.ghost_queue.tail
      requests := upd s.requests f { (cleanup_coro (s.requests f)).1 with alive := false }
      fd_open := upd s.fd_open (s.requests f).fd false
      freed_coros := s.freed_coros ++ (cleanup_coro (s.requests f)).2.toList } := by
  have hfields := cleanup_coro_fields (s.requests f)
  have hsr : ∀ g, (upd s.requests f
      { (cleanup_coro (s.requests f)).1 with alive := false } g).should_resume_coro
        = (s.requests g).should_resume_coro := by
    intro g
    by_cases hg : g = f
    · subst hg
      rw [upd_self]
      exact hfields.1
    · rw [upd_other _ _ _ _ hg]
  have hwe : ∀ g, (upd s.requests f
      { (cleanup_coro (s.requests f)).1 with alive := false } g).write_events
        = (s.requests g).write_events := by
    intro g
    by_cases hg : g = f
    · subst hg
      rw [upd_self]
      exact hfields.2.1
    · rw [upd_other _ _ _ _ hg]
  have hcoro : ∀ g cid, (upd s.requests f
      { (cleanup_coro (s.requests f)).1 with alive := false } g).coro = some cid →
      (s.requests g).coro = some cid := by
    intro g cid hg
    by_cases hgf : g = f
    · subst hgf
      rw [upd_self] at hg
      cases hfr : (cleanup_coro (s.requests g)).2 with
      | none =>
          have hkeep := cleanup_coro_not_freed (s.requests g) hfr
          show (s.requests g).coro = some cid
          rw [← hkeep]
          exact hg
      | some cid2 =>
          have hnone := ((cleanup_coro_freed (s.requests g) cid2 hfr).2).2
          have : ({ (cleanup_coro (s.requests g)).1 with alive := false } : Conn).coro
              = none := hnone
          rw [this] at hg
          exact Option.noConfusion hg
    · rw [upd_other _ _ _ _ hgf] at hg
      exact hg
  have hcoro_none : ∀ g, (upd s.requests f
      { (cleanup_coro (s.requests f)).1 with alive := false } g).coro = none →
      ((s.requests g).coro = none ∨
        (g = f ∧ (s.requests g).should_resume_coro = false)) := by
    intro g hg
    by_cases hgf : g = f
    · subst hgf
      rw [upd_self] at hg
      cases hfr : (cleanup_coro (s.requests g)).2 with
      | none =>
          have hkeep := cleanup_coro_not_freed (s.requests g) hfr
          refine Or.inl ?_
          rw [← hkeep]
          exact hg
      | some cid2 =>
          exact Or.inr ⟨rfl, ((cleanup_coro_freed (s.requests g) cid2 hfr).2).1⟩
    · rw [upd_other _ _ _ _ hgf] at hg
      exact Or.inl hg
  refine
    { wc := ?_, coro_none := ?_, started_of_coro := ?_, interest := ?_,
      freed_nodup := ?_, live_fresh := ?_, live_not_freed := ?_, freed_lt := ?_,
      live_inj := ?_, ghost_len := ?_, ghost_sorted := List.Chain'.tail hinv.ghost_sorted,
      ghost_bound := ?_ }
  · intro g
    show (upd s.requests f _ g).should_resume_coro = (upd s.requests f _ g).write_events
    rw [hsr g, hwe g]
    exact hinv.wc g
  · intro g hg
    show (upd s.requests f _ g).should_resume_coro = false
    rw [hsr g]
    rcases hcoro_none g hg with hg2 | ⟨_, hg2⟩
    · exact hinv.coro_none g hg2
    · exact hg2
  · intro g cid hg
    show s.coro_started g = true
    exact hinv.started_of_coro g cid (hcoro g cid hg)
  · intro g hgopen hgdirty
    show maskWantsWrite (s.epoll_interest g) = (upd s.requests f _ g).write_events
    rw [hwe g]
    by_cases hgfd : g = (s.requests f).fd
    · subst hgfd
      rw [show ({ s with
          death_queue_first := (s.death_queue_first + 1) % cfg.max_fd
          death_queue_population := s.death_queue_population - 1
          ghost_queue := s.ghost_queue.tail
          requests := upd s.requests f
            { (cleanup_coro (s.requests f)).1 with alive := false }
          fd_open := upd s.fd_open (s.requests f).fd false
          freed_coros := s.freed_coros
            ++ (cleanup_coro (s.requests f)).2.toList } : WState).fd_open
            (s.requests f).fd = upd s.fd_open (s.requests f).fd false
            ((s.requests f).fd) from rfl, upd_self] at hgopen
      exact Bool.noConfusion hgopen
    · have hgopen2 : s.fd_open g = true := by
        rw [show ({ s with
            death_queue_first := (s.death_queue_first + 1) % cfg.max_fd
            death_queue_population := s.death_queue_population - 1
            ghost_queue := s.ghost_queue.tail
            requests := upd s.requests f
              { (cleanup_coro (s.requests f)).1 with alive := false }
            fd_open := upd s.fd_open (s.requests f).fd false
            freed_coros := s.freed_coros
              ++ (cleanup_coro (s.requests f)).2.toList } : WState).fd_open g
            = upd s.fd_open (s.requests f).fd false g from rfl,
          upd_other _ _ _ _ hgfd] at hgopen
        exact hgopen
      exact hinv.interest g hgopen2 hgdirty
  · show (s.freed_coros ++ (cleanup_coro (s.requests f)).2.toList).Nodup
    cases hfr : (cleanup_coro (s.requests f)).2 with
    | none =>
        simp [hinv.freed_nodup]
    | some cid =>
        have hco := (cleanup_coro_freed (s.requests f) cid hfr).1
        have hnotin : cid ∉ s.freed_coros := hinv.live_not_freed f cid hco
        simp [List.nodup_append, hinv.freed_nodup, hnotin]
  · intro g cid hg
    show cid < s.next_coro_id
    exact hinv.live_fresh g cid (hcoro g cid hg)
  · intro g cid hg
    show cid ∉ s.freed_coros ++ (cleanup_coro (s.requests f)).2.toList
    have hg2 := hcoro g cid hg
    cases hfr : (cleanup_coro (s.requests f)).2 with
    | none =>
        simpa using hinv.live_not_freed g cid hg2
    | some cid2 =>
        have hco := (cleanup_coro_freed (s.requests f) cid2 hfr).1
        intro hmem
        rcases List.mem_append.mp hmem with hmem | hmem
        · exact hinv.live_not_freed g cid hg2 hmem
        · rw [show (some cid2).toList = [cid2] from rfl, List.mem_singleton] at hmem
          subst hmem
          have hgf : g = f := hinv.live_inj g f cid hg2 hco
          subst hgf
          have hg' : (upd s.requests g
              { (cleanup_coro (s.requests g)).1 with alive := false } g).coro
              = some cid := hg
          rw [upd_self] at hg'
          have hnone := ((cleanup_coro_freed (s.requests g) cid hfr).2).2
          have heq2 : ({ (cleanup_coro (s.requests g)).1 with alive := false } : Conn).coro
              = none := hnone
          rw [heq2] at hg'
          exact Option.noConfusion hg'
  · intro cid hmem
    show cid < s.next_coro_id
    cases hfr : (cleanup_coro (s.requests f)).2 with
    | none =>
        rw [hfr] at hmem
        simp at hmem
        exact hinv.freed_lt cid hmem
    | some cid2 =>
        rw [hfr] at hmem
        rcases List.mem_append.mp hmem with hmem | hmem
        · exact hinv.freed_lt cid hmem
        · rw [show (some cid2).toList = [cid2] from rfl, List.mem_singleton] at hmem
          subst hmem
          exact hinv.live_fresh f cid ((cleanup_coro_freed (s.requests f) cid hfr).1)
  · intro g g2 cid hg hg2
    exact hinv.live_inj g g2 cid (hcoro g cid hg) (hcoro g2 cid hg2)
  · show s.ghost_queue.tail.length = s.death_queue_population - 1
    rw [List.length_tail, hinv.ghost_len]
  · intro p hp
    exact hinv.ghost_bound p (List.mem_of_mem_tail hp)

theorem winv_reap (cfg : WConfig) : ∀ (fuel : Nat) (s : WState),
    WInv s → WInv (reap_loop cfg fuel s) := by
  intro fuel
  induction fuel with
  | zero =>
      intro s hinv
      rw [reap_loop]
      exact hinv
  | succ fuel ih =>
      intro s hinv
      simp only [reap_loop]
      split
      · exact hinv
      · split
        · split
          · exact ih _ (winv_reap_kill cfg s hinv _)
          · exact ih _ (winv_reap_pop cfg s hinv)
        · exact hinv

theorem winv_timeout (cfg : WConfig) (s : WState) (hinv : WInv s) :
    WInv (timeout_step cfg s) := by
  have h1 : WInv { s with death_time := s.death_time + 1 } :=
    { wc := hinv.wc, coro_none := hinv.coro_none,
      started_of_coro := hinv.started_of_coro, interest := hinv.interest,
      freed_nodup := hinv.freed_nodup, live_fresh := hinv.live_fresh,
      live_not_freed := hinv.live_not_freed, freed_lt := hinv.freed_lt,
      live_inj := hinv.live_inj, ghost_len := hinv.ghost_len,
      ghost_sorted := hinv.ghost_sorted,
      ghost_bound := fun p hp => le_trans (hinv.ghost_bound p hp) (Nat.le_succ _) }
  exact winv_reap cfg _ _ h1

theorem winv_reachable (cfg : WConfig) (rlim_cur : Nat) (s : WState)
    (h : WReachable cfg rlim_cur s) : WInv s := by
  unfold WReachable at h
  induction h with
  | refl => exact winv_init rlim_cur
  | tail hsteps hstep ih =>
      cases hstep with
      | accept f s2 hf => exact winv_accept _ _ ih
      | dispatch f hup kA res s2 hf => exact winv_dispatch cfg _ hup _ _ _ ih hf
      | timeout s2 => exact winv_timeout cfg _ ih

/-! ### C1, C3, C7: amended claims -/

/-- C1 amended: the death queue is ordered by enrollment time — the
enrollment ticks of the outstanding (not yet dequeued) entries are
non-decreasing from oldest to newest and never exceed the current
tick, with exactly `population` outstanding enrollments.  The
`time_to_die` values walking the ring, however, need not be
non-decreasing: a non-keep-alive, non-resumable connection is enrolled
with `time_to_die = death_time` (no timeout added), and activity on an
already-enrolled fd refreshes its `time_to_die` in place. -/
theorem C1_death_queue_enrollment_ordered (cfg : WConfig) (rlim_cur : Nat)
    (s : WState) (h : WReachable cfg rlim_cur s) :
    s.ghost_queue.length = s.death_queue_population ∧
    List.Chain' (fun a b => a.2 ≤ b.2) s.ghost_queue ∧
    (∀ p ∈ s.ghost_queue, p.2 ≤ s.death_time) := by
  have hinv := winv_reachable cfg rlim_cur s h
  exact ⟨hinv.ghost_len, hinv.ghost_sorted, hinv.ghost_bound⟩

/-- C1 witness: the ordering at a concrete reachable state. -/
theorem C1_death_queue_enrollment_ordered_witness :
    c1_state.ghost_queue.length = c1_state.death_queue_population ∧
    List.Chain' (fun a b => a.2 ≤ b.2) c1_state.ghost_queue ∧
    (∀ p ∈ c1_state.ghost_queue, p.2 ≤ c1_state.death_time) :=
  C1_death_queue_enrollment_ordered cfgA 8 c1_state c1_state_reachable

/-- C3 amended: after each resume, `epoll_ctl(MOD)` is issued exactly
when the resume result differs from the current `write_events` (as it
stands after a first-resume reset), with the fixed mask for the new
direction, and `write_events` is toggled to match the result; the
invariant "`write_events` equals the direction of the most recently
programmed interest" holds for every open fd whose slot had
`write_events` clear when the fd was enrolled — a reused fd whose slot
retains `write_events = true` from a hung-up mid-write coroutine
violates it until a MOD resynchronizes. -/
theorem C3_write_events_mod_toggle (cfg : WConfig) (rlim_cur : Nat) (s : WState)
    (h : WReachable cfg rlim_cur s) :
    (∀ f, s.fd_open f = true → s.dirty_at_add f = false →
        maskWantsWrite (s.epoll_interest f) = (s.requests f).write_events) ∧
    (∀ (c : Conn) (started keepAlive res : Bool) (cid : Nat),
        c.coro = some cid → c.should_resume_coro = true →
        (resume_coro_if_needed c started keepAlive res).conn.should_resume_coro = res ∧
        (resume_coro_if_needed c started keepAlive res).conn.write_events = res ∧
        (resume_coro_if_needed c started keepAlive res).mod_mask
          = (if res = (if started then c else reset_request c).write_events then none
             else some (events_by_write_flag
               (if started then c else reset_request c).write_events)) ∧
        (∀ m, (resume_coro_if_needed c started keepAlive res).mod_mask = some m →
          maskWantsWrite m = res)) := by
  refine ⟨fun f => (winv_reachable cfg rlim_cur s h).interest f, ?_⟩
  intro c started keepAlive res cid hcoro hsr
  cases started <;> cases res <;> by_cases hwe : c.write_events = true <;>
    simp [resume_coro_if_needed, hcoro, hsr, reset_request, zeroConn, hwe,
      maskWantsWrite_events_by_write_flag]

/-- C3 witness: the invariant instance at a concrete reachable state
whose fd 1 was enrolled with a clean slot. -/
theorem C3_write_events_mod_toggle_witness :
    maskWantsWrite (c1_state.epoll_interest 1) = (c1_state.requests 1).write_events :=
  (C3_write_events_mod_toggle cfgA 8 c1_state c1_state_reachable).1 1
    (by decide) (by decide)

/-- C7 amended: the hangup handler itself frees nothing — the slot's
coroutine reference and the list of freed coroutines are untouched —
and `coro_free` is invoked at most once per created coroutine (the
freed-id list never holds duplicates).  The claim's other part is
false: the coroutine of a hung-up connection is not freed by the next
reap pass (the tombstone is skipped before `_cleanup_coro`) nor by a
next event while `should_resume_coro` is still set. -/
theorem C7_hangup_no_free_no_double_free (cfg : WConfig) (rlim_cur : Nat)
    (s : WState) (h : WReachable cfg rlim_cur s) (f : Nat) (kA res : Bool) :
    ((dispatch_step cfg f true kA res s).requests f).coro = (s.requests f).coro ∧
    (dispatch_step cfg f true kA res s).freed_coros = s.freed_coros ∧
    s.freed_coros.Nodup := by
  refine ⟨?_, rfl, (winv_reachable cfg rlim_cur s h).freed_nodup⟩
  show (upd s.requests f (handle_hangup { s.requests f with fd := f }) f).coro
      = (s.requests f).coro
  rw [upd_self]
  rfl

/-- C7 witness: hangup-preservation and no-double-free at a concrete
reachable state. -/
theorem C7_hangup_no_free_no_double_free_witness :
    ((dispatch_step cfgB 1 true false false c7_state_reaped).requests 1).coro
        = (c7_state_reaped.requests 1).coro ∧
    (dispatch_step cfgB 1 true false false c7_state_reaped).freed_coros
        = c7_state_reaped.freed_coros ∧
    c7_state_reaped.freed_coros.Nodup :=
  C7_hangup_no_free_no_double_free cfgB 8 c7_state_reaped c7_state_reaped_reachable
    1 false false

end Lwan
